import Mathlib

/-!
Verification of the kvstore engine (src/kvstore.c, src/kvstore.h) against its
natural-language specification.

The shallow embedding below translates the C source line by line:

* The backend storage medium is modelled as a `List Nat` of bytes; entries are
  interpreted modulo 256 (the medium stores `uint8_t`).  The model backend is
  the "reliable" one: a `read`/`write` of an in-range byte span succeeds and a
  read never partially fills the buffer, an out-of-range access fails and does
  not commit anything.  This matches the backend contract of the spec (§6);
  the error branches of the C code that guard a backend call remain present in
  the embedding even when the reliable backend makes them unreachable.
* Every kvstore operation additionally returns the list of backend accesses it
  performed (`Access` log), so that "never invokes the backend's write
  operation" and "returns before any backend access" are statable theorems.
* `size_t` arithmetic is `Nat`; overflow/underflow is modelled with an explicit
  `% 2^64` exactly where the C can wrap (`calculate_slot_size`,
  `calculate_value_size`, the `remaining_space` subtraction and the
  free-slot-size comparison in `kvstore_put`).  Multi-byte length fields are
  written in little-endian byte order (the byte order of the reference
  platform's `memcpy` of a `uint32_t`).
* The C `while` loops of `kvstore_put` and `kvstore_search_next` are embedded
  as fuel-indexed structural recursions returning `Option`; `none` means the
  fuel was exhausted.  The wrappers call them with fuel `size + 1`, and
  fuel-sufficiency lemmas below prove that this fuel is never exhausted, which
  is exactly the termination of the C loops.
* `NULL` pointer arguments of the API are modelled with `Option`/`Bool`
  parameters; the in/out size parameters of `read_slot` are a `Nat` in and a
  `Nat` out (the out value equals the in value whenever the C leaves the
  pointee untouched).  A caller buffer of a stated size `n` is modelled by
  `cbuf`, which pads a too-short list with zeros (a valid C call always passes
  a buffer of the full size, so the padding is never exercised by the claims).

Unmodelled C functions: `kvstore_init`/`kvstore_free` (pure pointer
bookkeeping, no backend access, no claim mentions them) and the dead static
helper `advance_slot` (never called).
-/

/-- `size_t` modulus of the reference platform. -/
def W64 : Nat := 2 ^ 64

/-- KVSTORE_MAX_KEY_SIZE (kvstore.h, default configuration). -/
def KVSTORE_MAX_KEY_SIZE : Nat := 16

/-- KVSTORE_KEY_SIZE_BYTES (kvstore.h, default configuration). -/
def KVSTORE_KEY_SIZE_BYTES : Nat := 4

/-- KVSTORE_VALUE_SIZE_BYTES (kvstore.h, default configuration). -/
def KVSTORE_VALUE_SIZE_BYTES : Nat := 4

/-- KVSTORE_HEADER_SIZE_BYTES (kvstore.h, default configuration). -/
def KVSTORE_HEADER_SIZE_BYTES : Nat := 4

/-- KVSTORE_HEADER_MAGIC (kvstore.h, default configuration). -/
def KVSTORE_HEADER_MAGIC : List Nat := [0xf8, 0x2a, 0x93, 0x11]

/-- KvStoreResult (kvstore.h). -/
inductive KvStoreResult where
  | OK
  | FAILED
  | BAD_ARG
  | NOT_FOUND
deriving DecidableEq

/-- One backend access: a `read` call, a `write` call, or a `get_size` call. -/
inductive Access where
  | rd (pos len : Nat)
  | wr (pos len : Nat)
  | sz
deriving DecidableEq

/-- The backend's `get_size` callback. -/
def bk_size (s : List Nat) : Nat := s.length

/-- The backend's `read` callback: an in-range read returns the bytes
(interpreted mod 256), an out-of-range read fails without filling the
buffer. -/
def bk_read (s : List Nat) (pos len : Nat) : Option (List Nat) :=
  if pos + len ≤ s.length then some (((s.drop pos).take len).map (fun b => b % 256)) else none

/-- The backend's `write` callback: an in-range write replaces the addressed
bytes (stored mod 256), an out-of-range write fails without committing. -/
def bk_write (s : List Nat) (buf : List Nat) (pos : Nat) : Option (List Nat) :=
  if pos + buf.length ≤ s.length then
    some (s.take pos ++ buf.map (fun b => b % 256) ++ s.drop (pos + buf.length))
  else none

/-- A C caller buffer of `n` bytes holding (a prefix of) `l`: the bytes past
`l.length` are modelled as zeros (a valid call has `l.length = n`). -/
def cbuf (l : List Nat) (n : Nat) : List Nat := l.take n ++ List.replicate (n - l.length) 0

/-- Little-endian encoding of an unsigned field of `width` bytes
(the in-memory bytes of the C integer `tmp`/`tmp2` of `write_slot`). -/
def encLe : Nat → Nat → List Nat
  | 0, _ => []
  | n + 1, v => v % 256 :: encLe n (v / 256)

/-- Little-endian decoding of an unsigned field (the C integer read by
`read_slot` into `tmp`/`tmp2`). -/
def decLe : List Nat → Nat
  | [] => 0
  | b :: bs => b + 256 * decLe bs

/-- calculate_slot_size (kvstore.c:43), with the `size_t` wraparound
explicit. -/
def calculate_slot_size (key_size value_size : Nat) : Nat :=
  (KVSTORE_HEADER_SIZE_BYTES + KVSTORE_KEY_SIZE_BYTES + key_size +
    KVSTORE_VALUE_SIZE_BYTES + value_size) % W64

/-- calculate_value_size (kvstore.c:48), with the `size_t` underflow
explicit (`slot_size - 12 - key_size` computed modulo `2^64`). -/
def calculate_value_size (slot_size key_size : Nat) : Nat :=
  (((slot_size : Int) - KVSTORE_HEADER_SIZE_BYTES - KVSTORE_KEY_SIZE_BYTES - key_size -
    KVSTORE_VALUE_SIZE_BYTES) % (W64 : Int)).toNat

/-- The `size_t` subtraction `remaining_space` of kvstore.c:299. -/
def sizeTSub (a b : Nat) : Nat := (((a : Int) - b) % (W64 : Int)).toNat

/-- Result record of `write_slot`: result code, backend contents after the
call (partial writes before a failure are committed, as in the C), and the
backend accesses performed. -/
structure WriteOut where
  res : KvStoreResult
  store : List Nat
  log : List Access
deriving DecidableEq

/-- write_slot (kvstore.c:53).  `key = none` / `value = none` model the NULL
pointers used for free-slot writes. -/
def write_slot (s : List Nat) (position : Nat) (key : Option (List Nat)) (key_size : Nat)
    (value : Option (List Nat)) (value_size : Nat) : WriteOut :=
  if value_size = 0 then ⟨.BAD_ARG, s, []⟩
  else
    let slot_size := calculate_slot_size key_size value_size
    if position + slot_size > bk_size s then ⟨.FAILED, s, [.sz]⟩
    else
      match bk_write s KVSTORE_HEADER_MAGIC position with
      | none => ⟨.FAILED, s, [.sz, .wr position KVSTORE_HEADER_SIZE_BYTES]⟩
      | some s1 =>
        let log1 : List Access := [.sz, .wr position KVSTORE_HEADER_SIZE_BYTES]
        let p1 := position + KVSTORE_HEADER_SIZE_BYTES
        match bk_write s1 (encLe KVSTORE_KEY_SIZE_BYTES key_size) p1 with
        | none => ⟨.FAILED, s1, log1 ++ [.wr p1 KVSTORE_KEY_SIZE_BYTES]⟩
        | some s2 =>
          let log2 := log1 ++ [Access.wr p1 KVSTORE_KEY_SIZE_BYTES]
          let p2 := p1 + KVSTORE_KEY_SIZE_BYTES
          let cont := fun (s3 : List Nat) (log3 : List Access) =>
            let p3 := p2 + key_size
            match bk_write s3 (encLe KVSTORE_VALUE_SIZE_BYTES value_size) p3 with
            | none => (⟨.FAILED, s3, log3 ++ [.wr p3 KVSTORE_VALUE_SIZE_BYTES]⟩ : WriteOut)
            | some s4 =>
              let log4 := log3 ++ [Access.wr p3 KVSTORE_VALUE_SIZE_BYTES]
              let p4 := p3 + KVSTORE_VALUE_SIZE_BYTES
              match value with
              | some v =>
                match bk_write s4 (cbuf v value_size) p4 with
                | none => ⟨.FAILED, s4, log4 ++ [.wr p4 value_size]⟩
                | some s5 => ⟨.OK, s5, log4 ++ [.wr p4 value_size]⟩
              | none => ⟨.OK, s4, log4⟩
          match key with
          | some k =>
            match bk_write s2 (cbuf k key_size) p2 with
            | none => ⟨.FAILED, s2, log2 ++ [.wr p2 key_size]⟩
            | some s3 => cont s3 (log2 ++ [.wr p2 key_size])
          | none => cont s2 log2

/-- Result record of `read_slot`: result code, the two in/out size
parameters after the call, the bytes placed in the caller's key/value buffers
(`none` when the corresponding pointer was NULL or the copy never happened),
and the backend accesses performed. -/
structure ReadOut where
  res : KvStoreResult
  key_size : Nat
  value_size : Nat
  keyBytes : Option (List Nat)
  valueBytes : Option (List Nat)
  log : List Access
deriving DecidableEq

/-- read_slot (kvstore.c:119).  `wantKey`/`wantValue` model the `key`/`value`
pointers being non-NULL; `key_size`/`value_size` are the pointees on entry
(buffer capacities). -/
def read_slot (s : List Nat) (position : Nat) (wantKey : Bool) (key_size : Nat)
    (wantValue : Bool) (value_size : Nat) : ReadOut :=
  let size := bk_size s
  if position + KVSTORE_HEADER_SIZE_BYTES > size then
    ⟨.FAILED, key_size, value_size, none, none, [.sz]⟩
  else
    match bk_read s position KVSTORE_HEADER_SIZE_BYTES with
    | none => ⟨.FAILED, key_size, value_size, none, none,
        [.sz, .rd position KVSTORE_HEADER_SIZE_BYTES]⟩
    | some header =>
      let log1 : List Access := [.sz, .rd position KVSTORE_HEADER_SIZE_BYTES]
      if header = KVSTORE_HEADER_MAGIC then
        let p1 := position + KVSTORE_HEADER_SIZE_BYTES
        if p1 + KVSTORE_KEY_SIZE_BYTES > size then
          ⟨.FAILED, key_size, value_size, none, none, log1⟩
        else
          match bk_read s p1 KVSTORE_KEY_SIZE_BYTES with
          | none => ⟨.FAILED, key_size, value_size, none, none,
              log1 ++ [.rd p1 KVSTORE_KEY_SIZE_BYTES]⟩
          | some kszb =>
            let log2 := log1 ++ [Access.rd p1 KVSTORE_KEY_SIZE_BYTES]
            let tmp := decLe kszb
            let p2 := p1 + KVSTORE_KEY_SIZE_BYTES
            if tmp > key_size ∧ wantKey then
              ⟨.FAILED, key_size, value_size, none, none, log2⟩
            else
              if p2 + tmp > size then ⟨.FAILED, tmp, value_size, none, none, log2⟩
              else
                let cont := fun (keyBytes : Option (List Nat)) (log3 : List Access) =>
                  let p3 := p2 + tmp
                  if p3 + KVSTORE_VALUE_SIZE_BYTES > size then
                    (⟨.FAILED, tmp, value_size, keyBytes, none, log3⟩ : ReadOut)
                  else
                    match bk_read s p3 KVSTORE_VALUE_SIZE_BYTES with
                    | none => ⟨.FAILED, tmp, value_size, keyBytes, none,
                        log3 ++ [.rd p3 KVSTORE_VALUE_SIZE_BYTES]⟩
                    | some vszb =>
                      let log4 := log3 ++ [Access.rd p3 KVSTORE_VALUE_SIZE_BYTES]
                      let tmp2 := decLe vszb
                      let p4 := p3 + KVSTORE_VALUE_SIZE_BYTES
                      if tmp2 > value_size ∧ wantValue then
                        ⟨.FAILED, tmp, value_size, keyBytes, none, log4⟩
                      else
                        if p4 + tmp2 > size then ⟨.FAILED, tmp, tmp2, keyBytes, none, log4⟩
                        else
                          if wantValue then
                            match bk_read s p4 tmp2 with
                            | none => ⟨.FAILED, tmp, tmp2, keyBytes, none,
                                log4 ++ [.rd p4 tmp2]⟩
                            | some vb => ⟨.OK, tmp, tmp2, keyBytes, some vb,
                                log4 ++ [.rd p4 tmp2]⟩
                          else ⟨.OK, tmp, tmp2, keyBytes, none, log4⟩
                if wantKey then
                  match bk_read s p2 tmp with
                  | none => ⟨.FAILED, tmp, value_size, none, none, log2 ++ [.rd p2 tmp]⟩
                  | some kb => cont (some kb) (log2 ++ [.rd p2 tmp])
                else cont none log2
      else ⟨.FAILED, key_size, value_size, none, none, log1⟩

/-- kvstore_prepare (kvstore.c:248).  Note that the C discards the result of
`write_slot` and always returns KVSTORE_OK. -/
structure KvOut where
  res : KvStoreResult
  store : List Nat
  log : List Access
deriving DecidableEq

/-- kvstore_prepare (kvstore.c:248). -/
def kvstore_prepare (s : List Nat) : KvOut :=
  let value_size := calculate_value_size (bk_size s) 0
  let w := write_slot s 0 none 0 none value_size
  ⟨.OK, w.store, .sz :: w.log⟩

/-- The `while (1)` scan of kvstore_put (kvstore.c:280-306), as a fuel-indexed
recursion.  `size` is the backend size captured before the loop; `fks`/`fvs`
are the loop-carried `found_key_size`/`found_value_size` locals.  `none` means
the fuel ran out (the fuel used by `kvstore_put` is proven sufficient). -/
def put_loop (s : List Nat) (key : List Nat) (key_size : Nat) (value : List Nat)
    (value_size : Nat) (size : Nat) : Nat → Nat → Nat → Nat → Option KvOut
  | 0, _, _, _ => none
  | fuel + 1, position, fks, fvs =>
    if position ≥ size then
      let w := write_slot s position (some key) key_size (some value) value_size
      some ⟨if w.res ≠ .OK then .NOT_FOUND else .OK, w.store, w.log⟩
    else
      let r := read_slot s position false fks false fvs
      if r.res ≠ .OK then some ⟨.FAILED, s, r.log⟩
      else if r.key_size > 0 then
        (put_loop s key key_size value value_size size fuel
            (position + calculate_slot_size r.key_size r.value_size)
            r.key_size r.value_size).map
          fun o => ⟨o.res, o.store, r.log ++ o.log⟩
      else if calculate_slot_size r.key_size r.value_size <
          (calculate_slot_size key_size value_size + calculate_slot_size 0 0) % W64 then
        (put_loop s key key_size value value_size size fuel
            (position + calculate_slot_size r.key_size r.value_size)
            r.key_size r.value_size).map
          fun o => ⟨o.res, o.store, r.log ++ o.log⟩
      else
        let remaining_space :=
          sizeTSub (calculate_slot_size r.key_size r.value_size)
            (calculate_slot_size key_size value_size)
        let slot2_value_size := calculate_value_size remaining_space 0
        let w1 := write_slot s position (some key) key_size (some value) value_size
        let w2 := write_slot w1.store (position + calculate_slot_size key_size value_size)
          none 0 none slot2_value_size
        some ⟨.OK, w2.store, r.log ++ w1.log ++ w2.log⟩

/-- kvstore_put (kvstore.c:264).  `key = none` / `value = none` model NULL
arguments.  Note that the split path discards the results of both
`write_slot` calls, as the C does. -/
def kvstore_put (s : List Nat) (key : Option (List Nat)) (key_size : Nat)
    (value : Option (List Nat)) (value_size : Nat) : KvOut :=
  if key = none ∨ key_size = 0 ∨ value = none ∨ value_size = 0 ∨
      key_size > KVSTORE_MAX_KEY_SIZE then
    ⟨.BAD_ARG, s, []⟩
  else
    match put_loop s (key.getD []) key_size (value.getD []) value_size (bk_size s)
        (bk_size s + 1) 0 0 0 with
    | some o => ⟨o.res, o.store, .sz :: o.log⟩
    | none => ⟨.FAILED, s, [.sz]⟩

/-- KvStoreCursor (kvstore.h): scan position plus captured key.  `key` holds
the `key_size` bytes placed in the cursor's 16-byte array by
`kvstore_search`. -/
structure KvStoreCursor where
  position : Nat
  key : List Nat
  key_size : Nat
deriving DecidableEq

/-- kvstore_advance (kvstore.c:365). -/
def kvstore_advance (s : List Nat) (c : KvStoreCursor) :
    KvStoreResult × KvStoreCursor × List Access :=
  let r := read_slot s c.position false 0 false 0
  if r.res ≠ .OK then (.FAILED, c, r.log)
  else (.OK, { c with position := c.position + calculate_slot_size r.key_size r.value_size },
    r.log)

/-- The `while (1)` loop of kvstore_search_next (kvstore.c:342-360), as a
fuel-indexed recursion returning the result code and the final cursor
position.  Each iteration decodes with the cursor's 16-byte key buffer and, on
a non-match, calls `kvstore_advance` (whose result the C discards). -/
def search_loop (s : List Nat) (ckey : List Nat) (cksize : Nat) :
    Nat → Nat → Option (KvStoreResult × Nat × List Access)
  | 0, _ => none
  | fuel + 1, position =>
    let r := read_slot s position true KVSTORE_MAX_KEY_SIZE false 0
    if r.res ≠ .OK then some (.FAILED, position, r.log)
    else if r.key_size ≠ cksize then
      let a := kvstore_advance s ⟨position, ckey, cksize⟩
      (search_loop s ckey cksize fuel a.2.1.position).map
        fun o => (o.1, o.2.1, r.log ++ a.2.2 ++ o.2.2)
    else if r.keyBytes ≠ some (ckey.take r.key_size) then
      let a := kvstore_advance s ⟨position, ckey, cksize⟩
      (search_loop s ckey cksize fuel a.2.1.position).map
        fun o => (o.1, o.2.1, r.log ++ a.2.2 ++ o.2.2)
    else some (.OK, position, r.log)

/-- kvstore_search_next (kvstore.c:336). -/
def kvstore_search_next (s : List Nat) (c : KvStoreCursor) :
    KvStoreResult × KvStoreCursor × List Access :=
  match search_loop s c.key c.key_size (bk_size s + 1) c.position with
  | some (res, pos, lg) => (res, { c with position := pos }, lg)
  | none => (.FAILED, c, [])

/-- kvstore_search (kvstore.c:317). -/
def kvstore_search (s : List Nat) (c : KvStoreCursor) (key : Option (List Nat))
    (key_size : Nat) : KvStoreResult × KvStoreCursor × List Access :=
  if key = none ∨ key_size = 0 ∨ key_size > KVSTORE_MAX_KEY_SIZE then (.BAD_ARG, c, [])
  else kvstore_search_next s ⟨0, cbuf (key.getD []) key_size, key_size⟩

/-- kvstore_get (kvstore.c:383).  `valueNull`/`value_sizeNull` model NULL
`value`/`value_size` arguments; `value_size` is the pointee on entry.  Returns
the result code, the `value_size` pointee after the call, and the bytes placed
in the caller's value buffer. -/
def kvstore_get (s : List Nat) (c : KvStoreCursor) (valueNull : Bool)
    (value_sizeNull : Bool) (value_size : Nat) :
    KvStoreResult × Nat × Option (List Nat) × List Access :=
  if valueNull ∨ value_sizeNull ∨ value_size = 0 then (.BAD_ARG, value_size, none, [])
  else
    let r := read_slot s c.position false 0 true value_size
    (r.res, r.value_size, r.valueBytes, r.log)

/-- kvstore_get_kv (kvstore.c:397).  `keyNull`/`valueNull` model NULL buffer
arguments (the size pointers are always supplied here, which is the only
well-defined C call). -/
def kvstore_get_kv (s : List Nat) (c : KvStoreCursor) (keyNull : Bool) (key_size : Nat)
    (valueNull : Bool) (value_size : Nat) : ReadOut :=
  read_slot s c.position (!keyNull) key_size (!valueNull) value_size

/-- Sequential slot decoding from `pos` (the decoder is the code's own
`read_slot`, lengths only): `true` iff the decodes tile the byte range up to
exactly `s.length`. -/
def slots_ok (s : List Nat) : Nat → Nat → Bool
  | 0, _ => false
  | fuel + 1, pos =>
    if pos = s.length then true
    else
      let r := read_slot s pos false 0 false 0
      if r.res = .OK then
        slots_ok s fuel (pos + calculate_slot_size r.key_size r.value_size)
      else false

/-- The packing invariant of the spec: decoding slots sequentially from
offset 0 consumes exactly `size()` bytes with no gap and no overlap. -/
def packingInv (s : List Nat) : Bool := slots_ok s (s.length + 1) 0

/-- The sequence of slot start offsets of a store satisfying the packing
invariant (`none` if sequential decoding does not tile the store). -/
def tilingPositions (s : List Nat) : Nat → Nat → Option (List Nat)
  | 0, _ => none
  | fuel + 1, pos =>
    if pos = s.length then some []
    else
      let r := read_slot s pos false 0 false 0
      if r.res = .OK then
        (tilingPositions s fuel (pos + calculate_slot_size r.key_size r.value_size)).map
          (pos :: ·)
      else none

/-- Slot start offsets of the whole store. -/
def slotPositions (s : List Nat) : Option (List Nat) := tilingPositions s (s.length + 1) 0

/-- Lengths-only decode at a position (what the put scan and advance see). -/
def slotHead (s : List Nat) (pos : Nat) : ReadOut := read_slot s pos false 0 false 0

/-- The byte span of the slot decoded at `pos`. -/
def slotSizeAt (s : List Nat) (pos : Nat) : Nat :=
  calculate_slot_size (slotHead s pos).key_size (slotHead s pos).value_size

/-- The slot at `pos` matches the cursor key `ck` of length `cks`, exactly as
tested by an iteration of `kvstore_search_next`. -/
@[reducible] def matchesAt (s : List Nat) (pos : Nat) (ck : List Nat) (cks : Nat) : Prop :=
  (read_slot s pos true KVSTORE_MAX_KEY_SIZE false 0).res = .OK ∧
  (read_slot s pos true KVSTORE_MAX_KEY_SIZE false 0).key_size = cks ∧
  (read_slot s pos true KVSTORE_MAX_KEY_SIZE false 0).keyBytes =
    some (ck.take (read_slot s pos true KVSTORE_MAX_KEY_SIZE false 0).key_size)

/-- The put scan skips the slot at `pos` (occupied, or free but too small to
split), exactly as tested by kvstore.c:288 and kvstore.c:293. -/
@[reducible] def putSkips (s : List Nat) (pos : Nat) (ksz vsz : Nat) : Prop :=
  0 < (slotHead s pos).key_size ∨
  slotSizeAt s pos < (calculate_slot_size ksz vsz + calculate_slot_size 0 0) % W64

/-- The put scan splits the slot at `pos` (free and large enough). -/
@[reducible] def putUsable (s : List Nat) (pos : Nat) (ksz vsz : Nat) : Prop :=
  (slotHead s pos).key_size = 0 ∧
  ¬ slotSizeAt s pos < (calculate_slot_size ksz vsz + calculate_slot_size 0 0) % W64

/-- `true` iff the access is a backend write. -/
def Access.isWr : Access → Bool
  | .wr _ _ => true
  | _ => false

/-- The bytes a successful in-range backend read returns. -/
def readBytes (s : List Nat) (pos len : Nat) : List Nat :=
  ((s.drop pos).take len).map (fun b => b % 256)

/-- The store a successful in-range backend write produces. -/
def writeBytes (s : List Nat) (buf : List Nat) (pos : Nat) : List Nat :=
  s.take pos ++ buf.map (fun b => b % 256) ++ s.drop (pos + buf.length)

/-- The on-backend key length field of the slot at `pos` (the value
`read_slot` decodes into `tmp`). -/
def kLen (s : List Nat) (pos : Nat) : Nat := decLe (readBytes s (pos + 4) 4)

/-- The on-backend value length field of the slot at `pos`, given its key
length `k` (the value `read_slot` decodes into `tmp2`). -/
def vLen (s : List Nat) (pos k : Nat) : Nat := decLe (readBytes s (pos + 8 + k) 4)

/-- Structural validity of the slot at `pos`: all the header/length/bounds
checks of `read_slot` that do not involve caller buffer capacities. -/
@[reducible] def decodeOk (s : List Nat) (pos : Nat) : Prop :=
  pos + 8 ≤ s.length ∧ readBytes s pos 4 = KVSTORE_HEADER_MAGIC ∧
  pos + 8 + kLen s pos ≤ s.length ∧ pos + 12 + kLen s pos ≤ s.length ∧
  pos + 12 + kLen s pos + vLen s pos (kLen s pos) ≤ s.length

/-- `read_slot` rewritten into an if-normal form over `readBytes`, `kLen` and
`vLen` (no `Option` matches); `read_slot_eq_spec` below proves it equal to
`read_slot` on the reliable backend, and the lemmas about `read_slot` are
derived from this form. -/
def readSlotSpec (s : List Nat) (pos : Nat) (wk : Bool) (kIn : Nat) (wv : Bool)
    (vIn : Nat) : ReadOut :=
  if pos + 4 > s.length then ⟨.FAILED, kIn, vIn, none, none, [.sz]⟩
  else if readBytes s pos 4 ≠ KVSTORE_HEADER_MAGIC then
    ⟨.FAILED, kIn, vIn, none, none, [.sz, .rd pos 4]⟩
  else if pos + 8 > s.length then ⟨.FAILED, kIn, vIn, none, none, [.sz, .rd pos 4]⟩
  else if kLen s pos > kIn ∧ wk then
    ⟨.FAILED, kIn, vIn, none, none, [.sz, .rd pos 4, .rd (pos + 4) 4]⟩
  else if pos + 8 + kLen s pos > s.length then
    ⟨.FAILED, kLen s pos, vIn, none, none, [.sz, .rd pos 4, .rd (pos + 4) 4]⟩
  else
    let kb : Option (List Nat) := if wk then some (readBytes s (pos + 8) (kLen s pos)) else none
    let lg3 : List Access := [.sz, .rd pos 4, .rd (pos + 4) 4] ++
      (if wk then [.rd (pos + 8) (kLen s pos)] else [])
    if pos + 12 + kLen s pos > s.length then ⟨.FAILED, kLen s pos, vIn, kb, none, lg3⟩
    else
      let lg4 := lg3 ++ [Access.rd (pos + 8 + kLen s pos) 4]
      if vLen s pos (kLen s pos) > vIn ∧ wv then ⟨.FAILED, kLen s pos, vIn, kb, none, lg4⟩
      else if pos + 12 + kLen s pos + vLen s pos (kLen s pos) > s.length then
        ⟨.FAILED, kLen s pos, vLen s pos (kLen s pos), kb, none, lg4⟩
      else if wv then
        ⟨.OK, kLen s pos, vLen s pos (kLen s pos), kb,
          some (readBytes s (pos + 12 + kLen s pos) (vLen s pos (kLen s pos))),
          lg4 ++ [.rd (pos + 12 + kLen s pos) (vLen s pos (kLen s pos))]⟩
      else ⟨.OK, kLen s pos, vLen s pos (kLen s pos), kb, none, lg4⟩

/-- A chain of decodable, non-matching, capacity-admissible slots leading the
search scan from `pos` to `m`. -/
def scanChain (s : List Nat) (ck : List Nat) (cks : Nat) : List Nat → Nat → Nat → Prop
  | [], pos, m => pos = m
  | q :: qs, pos, m => pos = q ∧ decodeOk s q ∧ kLen s q ≤ KVSTORE_MAX_KEY_SIZE ∧
      ¬ matchesAt s q ck cks ∧
      scanChain s ck cks qs (q + 12 + kLen s q + vLen s q (kLen s q)) m

/-- The store produced by the split path of `kvstore_put` at free slot
position `p` (kvstore.c:298-305): the occupied slot written over the front of
the free slot, then the trailing free slot written after it. -/
def splitStore (s : List Nat) (p : Nat) (K : List Nat) (ksz : Nat) (V : List Nat)
    (vsz : Nat) : List Nat :=
  (write_slot (write_slot s p (some K) ksz (some V) vsz).store
    (p + calculate_slot_size ksz vsz) none 0 none
    (calculate_value_size
      (sizeTSub (calculate_slot_size (slotHead s p).key_size (slotHead s p).value_size)
        (calculate_slot_size ksz vsz)) 0)).store

theorem bk_read_eq (s : List Nat) (pos len : Nat) :
    bk_read s pos len = if pos + len ≤ s.length then some (readBytes s pos len) else none := by
  simp [bk_read, readBytes]

set_option maxHeartbeats 2000000 in
theorem read_slot_eq_spec (s : List Nat) (pos : Nat) (wk : Bool) (kIn : Nat) (wv : Bool)
    (vIn : Nat) : read_slot s pos wk kIn wv vIn = readSlotSpec s pos wk kIn wv vIn := by
  unfold read_slot readSlotSpec
  simp only [bk_read_eq, bk_size, KVSTORE_HEADER_SIZE_BYTES, KVSTORE_KEY_SIZE_BYTES,
    KVSTORE_VALUE_SIZE_BYTES, kLen, vLen]
  by_cases h1 : pos + 4 > s.length
  · simp [h1]
  · have h1' : pos + 4 ≤ s.length := by omega
    simp only [if_neg h1, if_pos h1']
    by_cases h2 : readBytes s pos 4 = KVSTORE_HEADER_MAGIC
    · simp only [if_pos h2, if_neg (show ¬ readBytes s pos 4 ≠ KVSTORE_HEADER_MAGIC from by simp [h2])]
      by_cases h3 : pos + 4 + 4 > s.length
      · simp only [if_pos h3, if_pos (show pos + 8 > s.length from by omega)]
      · have h3' : pos + 4 + 4 ≤ s.length := by omega
        simp only [if_neg h3, if_neg (show ¬ pos + 8 > s.length from by omega), if_pos h3']
        set k := decLe (readBytes s (pos + 4) 4) with hk
        by_cases h4 : k > kIn ∧ wk = true
        · simp only [if_pos h4]; simp
        · simp only [if_neg h4]
          by_cases h5 : pos + 4 + 4 + k > s.length
          · simp only [if_pos h5, if_pos (show pos + 8 + k > s.length from by omega)]; simp
          · have h5' : pos + 4 + 4 + k ≤ s.length := by omega
            simp only [if_neg h5, if_neg (show ¬ pos + 8 + k > s.length from by omega), if_pos h5']
            rw [show pos + 4 + 4 = pos + 8 from by omega]
            -- both sides now branch on wk for the key read; handle the two cases
            by_cases hwk : wk = true
            · simp only [hwk, if_pos rfl, reduceIte]
              by_cases h6 : pos + 8 + k + 4 > s.length
              · simp only [if_pos h6, if_pos (show pos + 12 + k > s.length from by omega)]; simp
              · have h6' : pos + 8 + k + 4 ≤ s.length := by omega
                simp only [if_neg h6, if_neg (show ¬ pos + 12 + k > s.length from by omega), if_pos h6']
                set v := decLe (readBytes s (pos + 8 + k) 4) with hv
                by_cases h7 : v > vIn ∧ wv = true
                · simp only [if_pos h7]; simp
                · simp only [if_neg h7]
                  by_cases h8 : pos + 8 + k + 4 + v > s.length
                  · simp only [if_pos h8, if_pos (show pos + 12 + k + v > s.length from by omega)]; simp
                  · have h8' : pos + 8 + k + 4 + v ≤ s.length := by omega
                    simp only [if_neg h8,
                      if_neg (show ¬ pos + 12 + k + v > s.length from by omega), if_pos h8']
                    rw [show pos + 8 + k + 4 = pos + 12 + k from by omega]
                    by_cases hwv : wv = true
                    · simp [hwv]
                    · simp [hwv]
            · simp only [if_neg hwk]
              by_cases h6 : pos + 8 + k + 4 > s.length
              · simp only [if_pos h6, if_pos (show pos + 12 + k > s.length from by omega)]; simp
              · have h6' : pos + 8 + k + 4 ≤ s.length := by omega
                simp only [if_neg h6, if_neg (show ¬ pos + 12 + k > s.length from by omega), if_pos h6']
                set v := decLe (readBytes s (pos + 8 + k) 4) with hv
                by_cases h7 : v > vIn ∧ wv = true
                · simp only [if_pos h7]; simp
                · simp only [if_neg h7]
                  by_cases h8 : pos + 8 + k + 4 + v > s.length
                  · simp only [if_pos h8, if_pos (show pos + 12 + k + v > s.length from by omega)]; simp
                  · have h8' : pos + 8 + k + 4 + v ≤ s.length := by omega
                    simp only [if_neg h8,
                      if_neg (show ¬ pos + 12 + k + v > s.length from by omega), if_pos h8']
                    rw [show pos + 8 + k + 4 = pos + 12 + k from by omega]
                    by_cases hwv : wv = true
                    · simp [hwv]
                    · simp [hwv]
    · simp only [if_neg h2, if_pos (show readBytes s pos 4 ≠ KVSTORE_HEADER_MAGIC from h2)]

set_option maxHeartbeats 1000000 in
theorem read_slot_res_iff (s : List Nat) (pos : Nat) (wk : Bool) (kIn : Nat) (wv : Bool)
    (vIn : Nat) :
    (read_slot s pos wk kIn wv vIn).res = .OK ↔
      (decodeOk s pos ∧ (wk = true → kLen s pos ≤ kIn) ∧
        (wv = true → vLen s pos (kLen s pos) ≤ vIn)) := by
  rw [read_slot_eq_spec]
  unfold readSlotSpec decodeOk
  split_ifs <;> (simp_all; try omega)

set_option maxHeartbeats 1000000 in
theorem read_slot_ok_fields (s : List Nat) (pos : Nat) (wk : Bool) (kIn : Nat) (wv : Bool)
    (vIn : Nat) (h : (read_slot s pos wk kIn wv vIn).res = .OK) :
    (read_slot s pos wk kIn wv vIn).key_size = kLen s pos ∧
    (read_slot s pos wk kIn wv vIn).value_size = vLen s pos (kLen s pos) ∧
    (read_slot s pos wk kIn wv vIn).keyBytes =
      (if wk then some (readBytes s (pos + 8) (kLen s pos)) else none) ∧
    (read_slot s pos wk kIn wv vIn).valueBytes =
      (if wv then some (readBytes s (pos + 12 + kLen s pos) (vLen s pos (kLen s pos))) else none) := by
  rw [read_slot_eq_spec] at *
  unfold readSlotSpec at *
  split_ifs at *
  all_goals simp_all

set_option maxHeartbeats 1000000 in
/-- Claim C4, amended: a failing `read_slot` either leaves both length
out-parameters at their entry values (failures up to and including the
key-capacity check), or leaves the key-length out-parameter set to the
on-backend key length field, with the value-length out-parameter either at
its entry value or set to the on-backend value length field — never any
other value. -/
theorem c4_fail_partial_lengths (s : List Nat) (pos : Nat) (wk : Bool) (kIn : Nat) (wv : Bool)
    (vIn : Nat) (h : (read_slot s pos wk kIn wv vIn).res ≠ .OK) :
    ((read_slot s pos wk kIn wv vIn).key_size = kIn ∧
      (read_slot s pos wk kIn wv vIn).value_size = vIn) ∨
    ((read_slot s pos wk kIn wv vIn).key_size = kLen s pos ∧
      ((read_slot s pos wk kIn wv vIn).value_size = vIn ∨
        (read_slot s pos wk kIn wv vIn).value_size = vLen s pos (kLen s pos))) := by
  rw [read_slot_eq_spec] at *
  unfold readSlotSpec at *
  split_ifs at * <;> simp_all

set_option maxHeartbeats 1000000 in
theorem read_slot_log_no_wr (s : List Nat) (pos : Nat) (wk : Bool) (kIn : Nat) (wv : Bool)
    (vIn : Nat) : ∀ a ∈ (read_slot s pos wk kIn wv vIn).log, a.isWr = false := by
  rw [read_slot_eq_spec]
  unfold readSlotSpec
  split_ifs <;> intro a ha <;> simp_all <;> rcases ha with h | h | h | h | h | h <;>
    simp_all [Access.isWr]

set_option maxHeartbeats 1000000 in
theorem read_slot_res_cases (s : List Nat) (pos : Nat) (wk : Bool) (kIn : Nat) (wv : Bool)
    (vIn : Nat) : (read_slot s pos wk kIn wv vIn).res = .OK ∨
      (read_slot s pos wk kIn wv vIn).res = .FAILED := by
  rw [read_slot_eq_spec]
  unfold readSlotSpec
  split_ifs <;> simp

theorem decLe_lt (bs : List Nat) (h : ∀ b ∈ bs, b < 256) : decLe bs < 256 ^ bs.length := by
  induction bs with
  | nil => simp [decLe]
  | cons b bs ih =>
    have hb := h b (by simp)
    have hr := ih (fun x hx => h x (by simp [hx]))
    simp only [decLe, List.length_cons, pow_succ]
    calc b + 256 * decLe bs < 256 + 256 * decLe bs := by omega
    _ ≤ 256 * (decLe bs + 1) := by omega
    _ ≤ 256 * 256 ^ bs.length := Nat.mul_le_mul_left _ hr
    _ = 256 ^ bs.length * 256 := by ring

theorem readBytes_lt (s : List Nat) (pos len : Nat) : ∀ b ∈ readBytes s pos len, b < 256 := by
  intro b hb
  simp only [readBytes, List.mem_map] at hb
  obtain ⟨a, _, rfl⟩ := hb
  exact Nat.mod_lt _ (by norm_num)

theorem readBytes_length_le (s : List Nat) (pos len : Nat) :
    (readBytes s pos len).length ≤ len := by
  simp [readBytes]

theorem kLen_lt (s : List Nat) (pos : Nat) : kLen s pos < 2 ^ 32 := by
  have h1 := decLe_lt (readBytes s (pos + 4) 4) (readBytes_lt _ _ _)
  have h2 := readBytes_length_le s (pos + 4) 4
  have h3 : (256 : Nat) ^ (readBytes s (pos + 4) 4).length ≤ 256 ^ 4 :=
    Nat.pow_le_pow_right (by norm_num) h2
  unfold kLen
  norm_num at h3 ⊢
  omega

theorem vLen_lt (s : List Nat) (pos k : Nat) : vLen s pos k < 2 ^ 32 := by
  have h1 := decLe_lt (readBytes s (pos + 8 + k) 4) (readBytes_lt _ _ _)
  have h2 := readBytes_length_le s (pos + 8 + k) 4
  have h3 : (256 : Nat) ^ (readBytes s (pos + 8 + k) 4).length ≤ 256 ^ 4 :=
    Nat.pow_le_pow_right (by norm_num) h2
  unfold vLen
  norm_num at h3 ⊢
  omega

theorem calculate_slot_size_small {k v : Nat} (hk : k < 2 ^ 32) (hv : v < 2 ^ 32) :
    calculate_slot_size k v = 12 + k + v := by
  unfold calculate_slot_size W64 KVSTORE_HEADER_SIZE_BYTES KVSTORE_KEY_SIZE_BYTES
    KVSTORE_VALUE_SIZE_BYTES
  have : 4 + 4 + k + 4 + v < 2 ^ 64 := by norm_num at hk hv ⊢; omega
  rw [Nat.mod_eq_of_lt this]
  omega

theorem sizeTSub_small {a b : Nat} (hba : b ≤ a) (ha : a < W64) : sizeTSub a b = a - b := by
  unfold sizeTSub
  have h1 : ((a : Int) - b) = ((a - b : Nat) : Int) := by omega
  rw [h1, Int.emod_eq_of_lt (by positivity) (by exact_mod_cast by omega : ((a - b : Nat) : Int) < (W64 : Int))]
  simp

theorem calculate_value_size_small {sl k : Nat} (h : 12 + k ≤ sl) (hsl : sl < W64) :
    calculate_value_size sl k = sl - 12 - k := by
  unfold calculate_value_size KVSTORE_HEADER_SIZE_BYTES KVSTORE_KEY_SIZE_BYTES
    KVSTORE_VALUE_SIZE_BYTES
  have h1 : ((sl : Int) - ((4 : Nat) : Int) - ((4 : Nat) : Int) - ((k : Nat) : Int) -
      ((4 : Nat) : Int)) = ((sl - 12 - k : Nat) : Int) := by push_cast; omega
  rw [h1, Int.emod_eq_of_lt (by positivity)
    (by exact_mod_cast (by omega : sl - 12 - k < W64))]
  simp

theorem encLe_length (n v : Nat) : (encLe n v).length = n := by
  induction n generalizing v with
  | zero => simp [encLe]
  | succ n ih => simp [encLe, ih]

theorem decLe_encLe (v : Nat) : decLe (encLe 4 v) = v % 2 ^ 32 := by
  simp only [encLe, decLe]
  omega

theorem encLe_map_mod (n v : Nat) : (encLe n v).map (fun b => b % 256) = encLe n v := by
  induction n generalizing v with
  | zero => simp [encLe]
  | succ n ih => simp [encLe, ih, Nat.mod_mod_of_dvd]

theorem lengths_res_iff (s : List Nat) (pos : Nat) (a b : Nat) :
    (read_slot s pos false a false b).res = .OK ↔ decodeOk s pos := by
  rw [read_slot_res_iff]
  simp

theorem kvstore_advance_fields (s : List Nat) (c : KvStoreCursor) (h : decodeOk s c.position) :
    (kvstore_advance s c).1 = .OK ∧
    (kvstore_advance s c).2.1.position =
      c.position + 12 + kLen s c.position + vLen s c.position (kLen s c.position) ∧
    (kvstore_advance s c).2.1.key = c.key ∧ (kvstore_advance s c).2.1.key_size = c.key_size := by
  have hres : (read_slot s c.position false 0 false 0).res = .OK := (lengths_res_iff _ _ _ _).2 h
  obtain ⟨hk, hv, -, -⟩ := read_slot_ok_fields s c.position false 0 false 0 hres
  unfold kvstore_advance
  rw [if_neg (by simp [hres])]
  refine ⟨rfl, ?_, rfl, rfl⟩
  simp only [hk, hv, calculate_slot_size_small (kLen_lt s c.position) (vLen_lt s c.position _)]
  omega

set_option maxHeartbeats 1000000 in
theorem search_loop_chain_fail (s : List Nat) (ck : List Nat) (cks : Nat) :
    ∀ Qs pos m fuel, scanChain s ck cks Qs pos m →
      (read_slot s m true KVSTORE_MAX_KEY_SIZE false 0).res ≠ .OK →
      s.length < fuel + pos → 0 < fuel →
      ∃ lg, search_loop s ck cks fuel pos = some (.FAILED, m, lg) := by
  intro Qs
  induction Qs with
  | nil =>
    intro pos m fuel hchain hm hb hf
    have heq : pos = m := hchain
    subst heq
    obtain ⟨fuel, rfl⟩ : ∃ k, fuel = k + 1 := ⟨fuel - 1, by omega⟩
    refine ⟨(read_slot s pos true KVSTORE_MAX_KEY_SIZE false 0).log, ?_⟩
    unfold search_loop
    rw [if_pos hm]
  | cons q qs ih =>
    intro pos m fuel hchain hm hb hf
    have hpq : pos = q := hchain.1
    subst hpq
    obtain ⟨-, hdec, hcap, hnm, hrest⟩ := hchain
    obtain ⟨fuel, rfl⟩ : ∃ k, fuel = k + 1 := ⟨fuel - 1, by omega⟩
    have hres : (read_slot s pos true KVSTORE_MAX_KEY_SIZE false 0).res = .OK := by
      rw [read_slot_res_iff]
      exact ⟨hdec, fun _ => hcap, by simp⟩
    have hadvp : (kvstore_advance s ⟨pos, ck, cks⟩).2.1.position =
        pos + 12 + kLen s pos + vLen s pos (kLen s pos) :=
      (kvstore_advance_fields s ⟨pos, ck, cks⟩ hdec).2.1
    have hnext : pos + 12 + kLen s pos + vLen s pos (kLen s pos) ≤ s.length := by
      have := hdec.2.2.2.2
      omega
    obtain ⟨lg, hlg⟩ := ih _ m fuel hrest hm (by omega) (by omega)
    refine ⟨(read_slot s pos true KVSTORE_MAX_KEY_SIZE false 0).log ++
      (kvstore_advance s ⟨pos, ck, cks⟩).2.2 ++ lg, ?_⟩
    unfold search_loop
    dsimp only
    rw [if_neg (by simp [hres])]
    by_cases hkey : (read_slot s pos true KVSTORE_MAX_KEY_SIZE false 0).key_size = cks
    · have hbytes : (read_slot s pos true KVSTORE_MAX_KEY_SIZE false 0).keyBytes ≠
          some (ck.take (read_slot s pos true KVSTORE_MAX_KEY_SIZE false 0).key_size) := by
        intro hby
        exact hnm ⟨hres, hkey, hby⟩
      rw [if_neg (by simp [hkey]), if_pos hbytes, hadvp, hlg]
      rfl
    · rw [if_pos hkey, hadvp, hlg]
      rfl

set_option maxHeartbeats 1000000 in
theorem search_loop_chain_ok (s : List Nat) (ck : List Nat) (cks : Nat) :
    ∀ Qs pos m fuel, scanChain s ck cks Qs pos m → matchesAt s m ck cks →
      s.length < fuel + pos → 0 < fuel →
      ∃ lg, search_loop s ck cks fuel pos = some (.OK, m, lg) := by
  intro Qs
  induction Qs with
  | nil =>
    intro pos m fuel hchain hm hb hf
    have heq : pos = m := hchain
    subst heq
    obtain ⟨fuel, rfl⟩ : ∃ k, fuel = k + 1 := ⟨fuel - 1, by omega⟩
    obtain ⟨hres, hkey, hbytes⟩ := hm
    refine ⟨(read_slot s pos true KVSTORE_MAX_KEY_SIZE false 0).log, ?_⟩
    unfold search_loop
    rw [if_neg (by simp [hres]), if_neg (by simp [hkey]), if_neg (by simp [hbytes])]
  | cons q qs ih =>
    intro pos m fuel hchain hm hb hf
    have hpq : pos = q := hchain.1
    subst hpq
    obtain ⟨-, hdec, hcap, hnm, hrest⟩ := hchain
    obtain ⟨fuel, rfl⟩ : ∃ k, fuel = k + 1 := ⟨fuel - 1, by omega⟩
    have hres : (read_slot s pos true KVSTORE_MAX_KEY_SIZE false 0).res = .OK := by
      rw [read_slot_res_iff]
      exact ⟨hdec, fun _ => hcap, by simp⟩
    have hadvp : (kvstore_advance s ⟨pos, ck, cks⟩).2.1.position =
        pos + 12 + kLen s pos + vLen s pos (kLen s pos) :=
      (kvstore_advance_fields s ⟨pos, ck, cks⟩ hdec).2.1
    have hnext : pos + 12 + kLen s pos + vLen s pos (kLen s pos) ≤ s.length := by
      have := hdec.2.2.2.2
      omega
    obtain ⟨lg, hlg⟩ := ih _ m fuel hrest hm (by omega) (by omega)
    refine ⟨(read_slot s pos true KVSTORE_MAX_KEY_SIZE false 0).log ++
      (kvstore_advance s ⟨pos, ck, cks⟩).2.2 ++ lg, ?_⟩
    unfold search_loop
    dsimp only
    rw [if_neg (by simp [hres])]
    by_cases hkey : (read_slot s pos true KVSTORE_MAX_KEY_SIZE false 0).key_size = cks
    · have hbytes : (read_slot s pos true KVSTORE_MAX_KEY_SIZE false 0).keyBytes ≠
          some (ck.take (read_slot s pos true KVSTORE_MAX_KEY_SIZE false 0).key_size) := by
        intro hby
        exact hnm ⟨hres, hkey, hby⟩
      rw [if_neg (by simp [hkey]), if_pos hbytes, hadvp, hlg]
      rfl
    · rw [if_pos hkey, hadvp, hlg]
      rfl

theorem tiling_mem_ge (s : List Nat) :
    ∀ n pos L q, tilingPositions s n pos = some L → q ∈ L → pos ≤ q := by
  intro n
  induction n with
  | zero => intro pos L q h; simp [tilingPositions] at h
  | succ n ih =>
    intro pos L q h hq
    unfold tilingPositions at h
    by_cases hp : pos = s.length
    · simp [hp] at h
      subst h
      simp at hq
    · rw [if_neg hp] at h
      by_cases hr : (read_slot s pos false 0 false 0).res = .OK
      · rw [if_pos hr] at h
        obtain ⟨L', hL', rfl⟩ := Option.map_eq_some'.1 h
        rcases List.mem_cons.1 hq with rfl | hq'
        · exact le_refl _
        · have := ih _ _ q hL' hq'
          omega
      · simp [if_neg hr] at h

/-- Every store decomposition step: from a tiling at a non-terminal position,
the slot decodes and the rest tiles. -/
theorem tiling_cons (s : List Nat) (n : Nat) (pos : Nat) (L : List Nat)
    (h : tilingPositions s (n + 1) pos = some L) (hne : pos ≠ s.length) :
    (read_slot s pos false 0 false 0).res = .OK ∧
    ∃ L', tilingPositions s n
        (pos + calculate_slot_size (kLen s pos) (vLen s pos (kLen s pos))) = some L' ∧
      L = pos :: L' := by
  unfold tilingPositions at h
  rw [if_neg hne] at h
  by_cases hr : (read_slot s pos false 0 false 0).res = .OK
  · rw [if_pos hr] at h
    obtain ⟨hk, hv, -, -⟩ := read_slot_ok_fields s pos false 0 false 0 hr
    rw [hk, hv] at h
    obtain ⟨L', hL', rfl⟩ := Option.map_eq_some'.1 h
    exact ⟨hr, L', hL', rfl⟩
  · simp [if_neg hr] at h

set_option maxHeartbeats 1000000 in
theorem tiling_chain_fail (s : List Nat) (ck : List Nat) (cks : Nat) :
    ∀ n pos L, tilingPositions s n pos = some L →
      (∀ q ∈ L, ¬ matchesAt s q ck cks) →
      ∃ Qs m, scanChain s ck cks Qs pos m ∧
        (read_slot s m true KVSTORE_MAX_KEY_SIZE false 0).res ≠ .OK := by
  intro n
  induction n with
  | zero => intro pos L h; simp [tilingPositions] at h
  | succ n ih =>
    intro pos L h hnm
    by_cases hp : pos = s.length
    · refine ⟨[], pos, rfl, ?_⟩
      rw [ne_eq, read_slot_res_iff]
      rintro ⟨⟨h8, -⟩, -⟩
      omega
    · obtain ⟨hr, L', hL', rfl⟩ := tiling_cons s n pos L h hp
      have hdec : decodeOk s pos := (lengths_res_iff s pos 0 0).1 hr
      by_cases hcap : kLen s pos ≤ KVSTORE_MAX_KEY_SIZE
      · rw [calculate_slot_size_small (kLen_lt s pos) (vLen_lt s pos _)] at hL'
        obtain ⟨Qs, m, hchain, hm⟩ := ih _ L' hL' (fun q hq => hnm q (List.mem_cons_of_mem _ hq))
        refine ⟨pos :: Qs, m, ⟨rfl, hdec, hcap, hnm pos (List.mem_cons_self _ _), ?_⟩, hm⟩
        have : pos + (12 + kLen s pos + vLen s pos (kLen s pos)) =
            pos + 12 + kLen s pos + vLen s pos (kLen s pos) := by omega
        rw [← this]
        exact hchain
      · refine ⟨[], pos, rfl, ?_⟩
        rw [ne_eq, read_slot_res_iff]
        rintro ⟨-, hwk, -⟩
        exact hcap (hwk rfl)

theorem write_slot_oob (s : List Nat) (pos : Nat) (k : Option (List Nat)) (ksz : Nat)
    (v : Option (List Nat)) (vsz : Nat) (hv : vsz ≠ 0)
    (hb : pos + calculate_slot_size ksz vsz > s.length) :
    write_slot s pos k ksz v vsz = ⟨.FAILED, s, [.sz]⟩ := by
  unfold write_slot
  rw [if_neg hv]
  simp only [bk_size]
  rw [if_pos hb]

theorem slotHead_fields (s : List Nat) (pos : Nat) (h : decodeOk s pos) :
    (slotHead s pos).key_size = kLen s pos ∧
    (slotHead s pos).value_size = vLen s pos (kLen s pos) := by
  have hres : (slotHead s pos).res = .OK := (lengths_res_iff s pos 0 0).2 h
  obtain ⟨hk, hv, -, -⟩ := read_slot_ok_fields s pos false 0 false 0 hres
  exact ⟨hk, hv⟩

set_option maxHeartbeats 1000000 in
theorem put_loop_skips_all (s K : List Nat) (ksz : Nat) (V : List Nat) (vsz : Nat)
    (hv0 : vsz ≠ 0) (hk32 : ksz < 2 ^ 32) (hv32 : vsz < 2 ^ 32) :
    ∀ n pos L fks fvs fuel, tilingPositions s n pos = some L →
      (∀ q ∈ L, putSkips s q ksz vsz) →
      s.length < fuel + pos → 0 < fuel →
      ∃ lg, put_loop s K ksz V vsz s.length fuel pos fks fvs = some ⟨.NOT_FOUND, s, lg⟩ := by
  intro n
  induction n with
  | zero => intro pos L fks fvs fuel h; simp [tilingPositions] at h
  | succ n ih =>
    intro pos L fks fvs fuel h hskip hb hf
    obtain ⟨fuel, rfl⟩ : ∃ j, fuel = j + 1 := ⟨fuel - 1, by omega⟩
    by_cases hp : pos = s.length
    · subst hp
      refine ⟨[.sz], ?_⟩
      unfold put_loop
      rw [if_pos (le_refl _)]
      rw [write_slot_oob s _ _ _ _ _ hv0 (by
        rw [calculate_slot_size_small hk32 hv32]
        omega)]
      rfl
    · obtain ⟨hr, L', hL', rfl⟩ := tiling_cons s n pos _ h hp
      have hdec : decodeOk s pos := (lengths_res_iff s pos 0 0).1 hr
      have hrfks : (read_slot s pos false fks false fvs).res = .OK :=
        (lengths_res_iff s pos fks fvs).2 hdec
      obtain ⟨hk, hv, -, -⟩ := read_slot_ok_fields s pos false fks false fvs hrfks
      have hsmall := calculate_slot_size_small (kLen_lt s pos) (vLen_lt s pos (kLen s pos))
      have hnext : pos + calculate_slot_size (kLen s pos) (vLen s pos (kLen s pos)) ≤
          s.length := by
        have := hdec.2.2.2.2
        omega
      have hlt : pos < s.length := by omega
      obtain ⟨lg, hlg⟩ := ih _ L' (kLen s pos) (vLen s pos (kLen s pos)) fuel hL'
        (fun q hq => hskip q (List.mem_cons_of_mem _ hq))
        (by rw [hsmall] at hnext ⊢; omega) (by rw [hsmall] at hnext; omega)
      have hsh := slotHead_fields s pos hdec
      refine ⟨(read_slot s pos false fks false fvs).log ++ lg, ?_⟩
      unfold put_loop
      dsimp only
      rw [if_neg (by omega), if_neg (by simp [hrfks])]
      by_cases hkey0 : 0 < kLen s pos
      · rw [if_pos (by rw [hk]; omega), hk, hv, hlg]
        rfl
      · have hsmallslot : slotSizeAt s pos <
            (calculate_slot_size ksz vsz + calculate_slot_size 0 0) % W64 := by
          rcases hskip pos (List.mem_cons_self _ _) with hocc | hs
          · rw [hsh.1] at hocc
            omega
          · exact hs
        rw [if_neg (by rw [hk]; omega)]
        rw [if_pos (by
          rw [hk, hv]
          unfold slotSizeAt at hsmallslot
          rw [hsh.1, hsh.2] at hsmallslot
          exact hsmallslot), hk, hv, hlg]
        rfl

set_option maxHeartbeats 1000000 in
theorem put_loop_reach_usable (s K : List Nat) (ksz : Nat) (V : List Nat) (vsz : Nat) (p : Nat)
    (hus : putUsable s p ksz vsz) :
    ∀ n pos L fks fvs fuel, tilingPositions s n pos = some L → p ∈ L →
      (∀ q ∈ L, q < p → putSkips s q ksz vsz) →
      s.length < fuel + pos → 0 < fuel →
      ∃ lg, put_loop s K ksz V vsz s.length fuel pos fks fvs =
        some ⟨.OK, splitStore s p K ksz V vsz, lg⟩ := by
  intro n
  induction n with
  | zero => intro pos L fks fvs fuel h; simp [tilingPositions] at h
  | succ n ih =>
    intro pos L fks fvs fuel h hmem hskip hb hf
    obtain ⟨fuel, rfl⟩ : ∃ j, fuel = j + 1 := ⟨fuel - 1, by omega⟩
    by_cases hp : pos = s.length
    · exfalso
      unfold tilingPositions at h
      rw [if_pos hp] at h
      obtain rfl : ([] : List Nat) = L := by simpa using h
      simp at hmem
    · obtain ⟨hr, L', hL', rfl⟩ := tiling_cons s n pos _ h hp
      have hdec : decodeOk s pos := (lengths_res_iff s pos 0 0).1 hr
      have hrfks : (read_slot s pos false fks false fvs).res = .OK :=
        (lengths_res_iff s pos fks fvs).2 hdec
      obtain ⟨hk, hv, -, -⟩ := read_slot_ok_fields s pos false fks false fvs hrfks
      have hsmall := calculate_slot_size_small (kLen_lt s pos) (vLen_lt s pos (kLen s pos))
      have hnext : pos + calculate_slot_size (kLen s pos) (vLen s pos (kLen s pos)) ≤
          s.length := by
        have := hdec.2.2.2.2
        omega
      have hlt : pos < s.length := by omega
      have hsh := slotHead_fields s pos hdec
      by_cases hpp : pos = p
      · subst hpp
        have hkey0 : kLen s pos = 0 := by
          have := hus.1
          rw [hsh.1] at this
          exact this
        have hbig : ¬ calculate_slot_size (kLen s pos) (vLen s pos (kLen s pos)) <
            (calculate_slot_size ksz vsz + calculate_slot_size 0 0) % W64 := by
          have := hus.2
          unfold slotSizeAt at this
          rw [hsh.1, hsh.2] at this
          exact this
        refine ⟨(read_slot s pos false fks false fvs).log ++
          (write_slot s pos (some K) ksz (some V) vsz).log ++
          (write_slot (write_slot s pos (some K) ksz (some V) vsz).store
            (pos + calculate_slot_size ksz vsz) none 0 none
            (calculate_value_size
              (sizeTSub (calculate_slot_size (kLen s pos) (vLen s pos (kLen s pos)))
                (calculate_slot_size ksz vsz)) 0)).log, ?_⟩
        unfold put_loop
        dsimp only
        rw [if_neg (by omega), if_neg (by simp [hrfks]), if_neg (by rw [hk]; omega),
          if_neg (by rw [hk, hv]; exact hbig), hk, hv]
        unfold splitStore
        rw [hsh.1, hsh.2]
      · have hpltp : pos < p := by
          have hple : pos + calculate_slot_size (kLen s pos) (vLen s pos (kLen s pos)) ≤ p := by
            have hpin : p ∈ L' := by
              rcases List.mem_cons.1 hmem with h1 | h2
              · exact absurd h1.symm hpp
              · exact h2
            exact tiling_mem_ge s n _ L' p hL' hpin
          rw [hsmall] at hple
          omega
        obtain ⟨lg, hlg⟩ := ih _ L' (kLen s pos) (vLen s pos (kLen s pos)) fuel hL'
          (by
            rcases List.mem_cons.1 hmem with h1 | h2
            · exact absurd h1.symm hpp
            · exact h2)
          (fun q hq hqp => hskip q (List.mem_cons_of_mem _ hq) hqp)
          (by rw [hsmall] at hnext ⊢; omega) (by rw [hsmall] at hnext; omega)
        refine ⟨(read_slot s pos false fks false fvs).log ++ lg, ?_⟩
        unfold put_loop
        dsimp only
        rw [if_neg (by omega), if_neg (by simp [hrfks])]
        by_cases hkey0 : 0 < kLen s pos
        · rw [if_pos (by rw [hk]; omega), hk, hv, hlg]
          rfl
        · have hsmallslot : slotSizeAt s pos <
              (calculate_slot_size ksz vsz + calculate_slot_size 0 0) % W64 := by
            rcases hskip pos (List.mem_cons_self _ _) hpltp with hocc | hs
            · rw [hsh.1] at hocc
              omega
            · exact hs
          rw [if_neg (by rw [hk]; omega)]
          rw [if_pos (by
            rw [hk, hv]
            unfold slotSizeAt at hsmallslot
            rw [hsh.1, hsh.2] at hsmallslot
            exact hsmallslot), hk, hv, hlg]
          rfl

theorem kvstore_put_of_loop (s K V : List Nat) (ksz vsz : Nat) (o : KvOut)
    (hk0 : ksz ≠ 0) (hv0 : vsz ≠ 0) (hkmax : ¬ ksz > KVSTORE_MAX_KEY_SIZE)
    (hloop : put_loop s K ksz V vsz (bk_size s) (bk_size s + 1) 0 0 0 = some o) :
    kvstore_put s (some K) ksz (some V) vsz = ⟨o.res, o.store, .sz :: o.log⟩ := by
  unfold kvstore_put
  rw [if_neg (by simp [hk0, hv0, hkmax])]
  simp only [Option.getD_some]
  rw [hloop]

theorem bk_write_some (s buf : List Nat) (pos : Nat) (h : pos + buf.length ≤ s.length) :
    bk_write s buf pos = some (writeBytes s buf pos) := by
  simp [bk_write, writeBytes, h]

theorem writeBytes_length (s buf : List Nat) (pos : Nat) (h : pos + buf.length ≤ s.length) :
    (writeBytes s buf pos).length = s.length := by
  simp [writeBytes]
  omega

theorem readBytes_writeBytes_before (s buf : List Nat) (pos x n : Nat)
    (hb : pos + buf.length ≤ s.length) (hx : x + n ≤ pos) :
    readBytes (writeBytes s buf pos) x n = readBytes s x n := by
  unfold readBytes writeBytes
  have h1 : ((s.take pos ++ buf.map (fun b => b % 256) ++ s.drop (pos + buf.length)).drop x) =
      (s.take pos).drop x ++ (buf.map (fun b => b % 256) ++ s.drop (pos + buf.length)) := by
    rw [List.append_assoc, List.drop_append_of_le_length (by simp; omega)]
  rw [h1]
  rw [List.take_append_of_le_length (by simp; omega)]
  rw [List.drop_take]
  rw [List.take_take]
  congr 2
  omega

theorem readBytes_writeBytes_after (s buf : List Nat) (pos x n : Nat)
    (hb : pos + buf.length ≤ s.length) (hx : pos + buf.length ≤ x) :
    readBytes (writeBytes s buf pos) x n = readBytes s x n := by
  unfold readBytes writeBytes
  have h1 : ((s.take pos ++ buf.map (fun b => b % 256) ++ s.drop (pos + buf.length)).drop x) =
      s.drop x := by
    rw [List.append_assoc, List.drop_append_eq_append_drop, List.drop_append_eq_append_drop]
    have e1 : (s.take pos).drop x = [] := by
      apply List.drop_eq_nil_of_le
      simp
      omega
    have e2 : (buf.map (fun b => b % 256)).drop (x - (s.take pos).length) = [] := by
      apply List.drop_eq_nil_of_le
      simp
      omega
    rw [e1, e2]
    simp
    congr 1
    omega
  rw [h1]

theorem readBytes_writeBytes_at (s buf : List Nat) (pos a n : Nat)
    (hb : pos + buf.length ≤ s.length) (han : a + n ≤ buf.length) :
    readBytes (writeBytes s buf pos) (pos + a) n = ((buf.drop a).take n).map (fun b => b % 256) := by
  unfold readBytes writeBytes
  have h1 : ((s.take pos ++ buf.map (fun b => b % 256) ++ s.drop (pos + buf.length)).drop (pos + a)) =
      (buf.map (fun b => b % 256)).drop a ++ s.drop (pos + buf.length) := by
    rw [List.append_assoc, List.drop_append_eq_append_drop]
    have e1 : (s.take pos).drop (pos + a) = [] := by
      apply List.drop_eq_nil_of_le
      simp
    rw [e1, List.drop_append_eq_append_drop]
    have e2 : pos + a - (s.take pos).length = a := by simp; omega
    rw [e2]
    have e3 : a - (buf.map (fun b => b % 256)).length = 0 := by simp; omega
    rw [e3]
    simp
  rw [h1]
  rw [List.take_append_of_le_length (by simp; omega)]
  rw [← List.map_drop, ← List.map_take, List.map_map]
  apply List.map_congr_left
  intro b hb2
  simp [Nat.mod_mod_of_dvd]

theorem cbuf_length (l : List Nat) (n : Nat) : (cbuf l n).length = n := by
  simp [cbuf]
  omega

theorem write_slot_zero (s : List Nat) (pos : Nat) (k : Option (List Nat)) (ksz : Nat)
    (v : Option (List Nat)) : write_slot s pos k ksz v 0 = ⟨.BAD_ARG, s, []⟩ := by
  unfold write_slot
  rw [if_pos rfl]

set_option maxHeartbeats 1000000 in
theorem write_slot_occ (s K V : List Nat) (pos ksz vsz : Nat)
    (hv0 : vsz ≠ 0) (hk32 : ksz < 2 ^ 32) (hv32 : vsz < 2 ^ 32)
    (hin : pos + (12 + ksz + vsz) ≤ s.length) :
    (write_slot s pos (some K) ksz (some V) vsz).res = .OK ∧
    (write_slot s pos (some K) ksz (some V) vsz).store =
      writeBytes (writeBytes (writeBytes (writeBytes (writeBytes s KVSTORE_HEADER_MAGIC pos)
        (encLe 4 ksz) (pos + 4)) (cbuf K ksz) (pos + 8)) (encLe 4 vsz) (pos + 8 + ksz))
        (cbuf V vsz) (pos + 12 + ksz) := by
  unfold write_slot
  rw [if_neg hv0]
  simp only [bk_size, KVSTORE_HEADER_SIZE_BYTES, KVSTORE_KEY_SIZE_BYTES,
    KVSTORE_VALUE_SIZE_BYTES, calculate_slot_size_small hk32 hv32]
  rw [if_neg (by omega)]
  have hm : KVSTORE_HEADER_MAGIC.length = 4 := by rfl
  rw [bk_write_some s KVSTORE_HEADER_MAGIC pos (by rw [hm]; omega)]
  dsimp only
  set t1 := writeBytes s KVSTORE_HEADER_MAGIC pos with ht1
  have hl1 : t1.length = s.length := writeBytes_length s KVSTORE_HEADER_MAGIC pos
    (by rw [hm]; omega)
  rw [bk_write_some t1 (encLe 4 ksz) (pos + 4) (by rw [encLe_length, hl1]; omega)]
  dsimp only
  set t2 := writeBytes t1 (encLe 4 ksz) (pos + 4) with ht2
  have hl2 : t2.length = s.length := by
    rw [ht2, writeBytes_length t1 _ _ (by rw [encLe_length, hl1]; omega), hl1]
  rw [show pos + 4 + 4 = pos + 8 from by omega]
  rw [bk_write_some t2 (cbuf K ksz) (pos + 8) (by rw [cbuf_length, hl2]; omega)]
  dsimp only
  set t3 := writeBytes t2 (cbuf K ksz) (pos + 8) with ht3
  have hl3 : t3.length = s.length := by
    rw [ht3, writeBytes_length t2 _ _ (by rw [cbuf_length, hl2]; omega), hl2]
  rw [bk_write_some t3 (encLe 4 vsz) (pos + 8 + ksz) (by rw [encLe_length, hl3]; omega)]
  dsimp only
  set t4 := writeBytes t3 (encLe 4 vsz) (pos + 8 + ksz) with ht4
  have hl4 : t4.length = s.length := by
    rw [ht4, writeBytes_length t3 _ _ (by rw [encLe_length, hl3]; omega), hl3]
  rw [show pos + 8 + ksz + 4 = pos + 12 + ksz from by omega]
  rw [bk_write_some t4 (cbuf V vsz) (pos + 12 + ksz) (by rw [cbuf_length, hl4]; omega)]
  dsimp only
  exact ⟨rfl, rfl⟩

set_option maxHeartbeats 1000000 in
theorem write_slot_free (s : List Nat) (pos vsz : Nat)
    (hv0 : vsz ≠ 0) (hv32 : vsz < 2 ^ 32) (hin : pos + (12 + vsz) ≤ s.length) :
    (write_slot s pos none 0 none vsz).res = .OK ∧
    (write_slot s pos none 0 none vsz).store =
      writeBytes (writeBytes (writeBytes s KVSTORE_HEADER_MAGIC pos)
        (encLe 4 0) (pos + 4)) (encLe 4 vsz) (pos + 8) := by
  unfold write_slot
  rw [if_neg hv0]
  simp only [bk_size, KVSTORE_HEADER_SIZE_BYTES, KVSTORE_KEY_SIZE_BYTES,
    KVSTORE_VALUE_SIZE_BYTES, calculate_slot_size_small (by norm_num : (0 : Nat) < 2 ^ 32) hv32]
  rw [if_neg (by omega)]
  have hm : KVSTORE_HEADER_MAGIC.length = 4 := by rfl
  rw [bk_write_some s KVSTORE_HEADER_MAGIC pos (by rw [hm]; omega)]
  dsimp only
  set t1 := writeBytes s KVSTORE_HEADER_MAGIC pos with ht1
  have hl1 : t1.length = s.length := writeBytes_length s KVSTORE_HEADER_MAGIC pos
    (by rw [hm]; omega)
  rw [bk_write_some t1 (encLe 4 0) (pos + 4) (by rw [encLe_length, hl1]; omega)]
  dsimp only
  set t2 := writeBytes t1 (encLe 4 0) (pos + 4) with ht2
  have hl2 : t2.length = s.length := by
    rw [ht2, writeBytes_length t1 _ _ (by rw [encLe_length, hl1]; omega), hl1]
  rw [show pos + 4 + 4 + 0 = pos + 8 from by omega]
  rw [bk_write_some t2 (encLe 4 vsz) (pos + 8) (by rw [encLe_length, hl2]; omega)]
  dsimp only
  exact ⟨rfl, rfl⟩

theorem magic_map_mod : KVSTORE_HEADER_MAGIC.map (fun b => b % 256) = KVSTORE_HEADER_MAGIC := by
  decide

theorem calculate_slot_size_zero : calculate_slot_size 0 0 = 12 := by decide

set_option maxHeartbeats 4000000 in
theorem splitStore_props (s K V : List Nat) (p ksz vsz : Nat)
    (hdec : decodeOk s p) (hus : putUsable s p ksz vsz)
    (hv0 : vsz ≠ 0) (hk32 : ksz < 2 ^ 32) (hv32 : vsz < 2 ^ 32) :
    (splitStore s p K ksz V vsz).length = s.length ∧
    (∀ x n, x + n ≤ p → readBytes (splitStore s p K ksz V vsz) x n = readBytes s x n) ∧
    (∀ x n, p + 12 + kLen s p + vLen s p (kLen s p) ≤ x →
      readBytes (splitStore s p K ksz V vsz) x n = readBytes s x n) ∧
    readBytes (splitStore s p K ksz V vsz) p 4 = KVSTORE_HEADER_MAGIC ∧
    readBytes (splitStore s p K ksz V vsz) (p + 4) 4 = encLe 4 ksz ∧
    readBytes (splitStore s p K ksz V vsz) (p + 8) ksz = (cbuf K ksz).map (fun b => b % 256) ∧
    readBytes (splitStore s p K ksz V vsz) (p + 8 + ksz) 4 = encLe 4 vsz ∧
    readBytes (splitStore s p K ksz V vsz) (p + 12 + ksz) vsz =
      (cbuf V vsz).map (fun b => b % 256) := by
  have hsh := slotHead_fields s p hdec
  have hk0 : kLen s p = 0 := by rw [← hsh.1]; exact hus.1
  have hv0lt := vLen_lt s p (kLen s p)
  have hreq : (calculate_slot_size ksz vsz + calculate_slot_size 0 0) % W64 =
      12 + ksz + vsz + 12 := by
    rw [calculate_slot_size_small hk32 hv32, calculate_slot_size_zero]
    apply Nat.mod_eq_of_lt
    unfold W64
    norm_num at hk32 hv32 ⊢
    omega
  have hbig : 12 + ksz + vsz + 12 ≤ 12 + kLen s p + vLen s p (kLen s p) := by
    have h2 := hus.2
    unfold slotSizeAt at h2
    rw [hsh.1, hsh.2, calculate_slot_size_small (kLen_lt s p) hv0lt, hreq] at h2
    omega
  have hend : p + 12 + kLen s p + vLen s p (kLen s p) ≤ s.length := hdec.2.2.2.2
  have hin1 : p + (12 + ksz + vsz) ≤ s.length := by omega
  obtain ⟨hw1res, hw1store⟩ := write_slot_occ s K V p ksz vsz hv0 hk32 hv32 hin1
  unfold splitStore
  rw [hsh.1, hsh.2, hw1store]
  set E1 := writeBytes (writeBytes (writeBytes (writeBytes (writeBytes s KVSTORE_HEADER_MAGIC p)
    (encLe 4 ksz) (p + 4)) (cbuf K ksz) (p + 8)) (encLe 4 vsz) (p + 8 + ksz))
    (cbuf V vsz) (p + 12 + ksz) with hE1
  have hm : KVSTORE_HEADER_MAGIC.length = 4 := by rfl
  have hb1 : p + KVSTORE_HEADER_MAGIC.length ≤ s.length := by rw [hm]; omega
  have hl1 : (writeBytes s KVSTORE_HEADER_MAGIC p).length = s.length :=
    writeBytes_length _ _ _ hb1
  have hb2 : p + 4 + (encLe 4 ksz).length ≤ (writeBytes s KVSTORE_HEADER_MAGIC p).length := by
    rw [encLe_length, hl1]; omega
  have hl2 : (writeBytes (writeBytes s KVSTORE_HEADER_MAGIC p) (encLe 4 ksz)
      (p + 4)).length = s.length := by
    rw [writeBytes_length _ _ _ hb2, hl1]
  have hb3 : p + 8 + (cbuf K ksz).length ≤ (writeBytes (writeBytes s KVSTORE_HEADER_MAGIC p)
      (encLe 4 ksz) (p + 4)).length := by
    rw [cbuf_length, hl2]; omega
  have hl3 : (writeBytes (writeBytes (writeBytes s KVSTORE_HEADER_MAGIC p) (encLe 4 ksz)
      (p + 4)) (cbuf K ksz) (p + 8)).length = s.length := by
    rw [writeBytes_length _ _ _ hb3, hl2]
  have hb4 : p + 8 + ksz + (encLe 4 vsz).length ≤ (writeBytes (writeBytes (writeBytes s
      KVSTORE_HEADER_MAGIC p) (encLe 4 ksz) (p + 4)) (cbuf K ksz) (p + 8)).length := by
    rw [encLe_length, hl3]; omega
  have hl4 : (writeBytes (writeBytes (writeBytes (writeBytes s KVSTORE_HEADER_MAGIC p)
      (encLe 4 ksz) (p + 4)) (cbuf K ksz) (p + 8)) (encLe 4 vsz) (p + 8 + ksz)).length =
      s.length := by
    rw [writeBytes_length _ _ _ hb4, hl3]
  have hb5 : p + 12 + ksz + (cbuf V vsz).length ≤ (writeBytes (writeBytes (writeBytes
      (writeBytes s KVSTORE_HEADER_MAGIC p) (encLe 4 ksz) (p + 4)) (cbuf K ksz) (p + 8))
      (encLe 4 vsz) (p + 8 + ksz)).length := by
    rw [cbuf_length, hl4]; omega
  have hlE1 : E1.length = s.length := by
    rw [hE1, writeBytes_length _ _ _ hb5, hl4]
  have hE1before : ∀ x n, x + n ≤ p → readBytes E1 x n = readBytes s x n := by
    intro x n hx
    rw [hE1, readBytes_writeBytes_before _ _ _ _ _ hb5 (by omega),
      readBytes_writeBytes_before _ _ _ _ _ hb4 (by omega),
      readBytes_writeBytes_before _ _ _ _ _ hb3 (by omega),
      readBytes_writeBytes_before _ _ _ _ _ hb2 (by omega),
      readBytes_writeBytes_before _ _ _ _ _ hb1 (by omega)]
  have hE1after : ∀ x n, p + 12 + ksz + vsz ≤ x → readBytes E1 x n = readBytes s x n := by
    intro x n hx
    rw [hE1, readBytes_writeBytes_after _ _ _ _ _ hb5 (by rw [cbuf_length]; omega),
      readBytes_writeBytes_after _ _ _ _ _ hb4 (by rw [encLe_length]; omega),
      readBytes_writeBytes_after _ _ _ _ _ hb3 (by rw [cbuf_length]; omega),
      readBytes_writeBytes_after _ _ _ _ _ hb2 (by rw [encLe_length]; omega),
      readBytes_writeBytes_after _ _ _ _ _ hb1 (by rw [hm]; omega)]
  have hE1hdr : readBytes E1 p 4 = KVSTORE_HEADER_MAGIC := by
    rw [hE1, readBytes_writeBytes_before _ _ _ _ _ hb5 (by omega),
      readBytes_writeBytes_before _ _ _ _ _ hb4 (by omega),
      readBytes_writeBytes_before _ _ _ _ _ hb3 (by omega),
      readBytes_writeBytes_before _ _ _ _ _ hb2 (by omega)]
    have hat := readBytes_writeBytes_at s KVSTORE_HEADER_MAGIC p 0 4 hb1 (by rw [hm]; try omega)
    rw [show p + 0 = p from by omega] at hat
    rw [hat]
    decide
  have hE1kf : readBytes E1 (p + 4) 4 = encLe 4 ksz := by
    rw [hE1, readBytes_writeBytes_before _ _ _ _ _ hb5 (by omega),
      readBytes_writeBytes_before _ _ _ _ _ hb4 (by omega),
      readBytes_writeBytes_before _ _ _ _ _ hb3 (by omega)]
    have hat := readBytes_writeBytes_at (writeBytes s KVSTORE_HEADER_MAGIC p) (encLe 4 ksz)
      (p + 4) 0 4 hb2 (by rw [encLe_length]; try omega)
    rw [show p + 4 + 0 = p + 4 from by omega] at hat
    rw [hat, List.drop_zero, List.take_of_length_le (by rw [encLe_length])]
    exact encLe_map_mod 4 ksz
  have hE1kb : readBytes E1 (p + 8) ksz = (cbuf K ksz).map (fun b => b % 256) := by
    rw [hE1, readBytes_writeBytes_before _ _ _ _ _ hb5 (by omega),
      readBytes_writeBytes_before _ _ _ _ _ hb4 (by omega)]
    have hat := readBytes_writeBytes_at (writeBytes (writeBytes s KVSTORE_HEADER_MAGIC p)
      (encLe 4 ksz) (p + 4)) (cbuf K ksz) (p + 8) 0 ksz hb3 (by rw [cbuf_length]; try omega)
    rw [show p + 8 + 0 = p + 8 from by omega] at hat
    rw [hat, List.drop_zero, List.take_of_length_le (by rw [cbuf_length])]
  have hE1vf : readBytes E1 (p + 8 + ksz) 4 = encLe 4 vsz := by
    rw [hE1, readBytes_writeBytes_before _ _ _ _ _ hb5 (by omega)]
    have hat := readBytes_writeBytes_at (writeBytes (writeBytes (writeBytes s
      KVSTORE_HEADER_MAGIC p) (encLe 4 ksz) (p + 4)) (cbuf K ksz) (p + 8)) (encLe 4 vsz)
      (p + 8 + ksz) 0 4 hb4 (by rw [encLe_length]; try omega)
    rw [show p + 8 + ksz + 0 = p + 8 + ksz from by omega] at hat
    rw [hat, List.drop_zero, List.take_of_length_le (by rw [encLe_length])]
    exact encLe_map_mod 4 vsz
  have hE1vb : readBytes E1 (p + 12 + ksz) vsz = (cbuf V vsz).map (fun b => b % 256) := by
    rw [hE1]
    have hat := readBytes_writeBytes_at (writeBytes (writeBytes (writeBytes (writeBytes s
      KVSTORE_HEADER_MAGIC p) (encLe 4 ksz) (p + 4)) (cbuf K ksz) (p + 8)) (encLe 4 vsz)
      (p + 8 + ksz)) (cbuf V vsz) (p + 12 + ksz) 0 vsz hb5 (by rw [cbuf_length]; try omega)
    rw [show p + 12 + ksz + 0 = p + 12 + ksz from by omega] at hat
    rw [hat, List.drop_zero, List.take_of_length_le (by rw [cbuf_length])]
  rw [sizeTSub_small (by rw [calculate_slot_size_small (kLen_lt s p) hv0lt,
      calculate_slot_size_small hk32 hv32]; omega)
    (by rw [calculate_slot_size_small (kLen_lt s p) hv0lt]; unfold W64; norm_num at hv0lt ⊢; omega)]
  rw [calculate_slot_size_small (kLen_lt s p) hv0lt, calculate_slot_size_small hk32 hv32]
  set rem := 12 + kLen s p + vLen s p (kLen s p) - (12 + ksz + vsz) with hrem
  have hrem12 : 12 ≤ rem := by omega
  have hremW : rem < W64 := by unfold W64; norm_num at hv0lt ⊢; omega
  rw [calculate_value_size_small hrem12 hremW]
  set s2vs := rem - 12 - 0 with hs2vs
  by_cases hz : s2vs = 0
  · rw [hz, write_slot_zero]
    dsimp only
    exact ⟨hlE1, hE1before, fun x n hx => hE1after x n (by omega), hE1hdr, hE1kf, hE1kb,
      hE1vf, hE1vb⟩
  · have hs2lt : s2vs < 2 ^ 32 := by norm_num at hv0lt ⊢; omega
    have hin2 : p + (12 + ksz + vsz) + (12 + s2vs) ≤ E1.length := by rw [hlE1]; omega
    obtain ⟨hw2res, hw2store⟩ := write_slot_free E1 (p + (12 + ksz + vsz)) s2vs hz hs2lt hin2
    rw [hw2store]
    have hc1 : p + (12 + ksz + vsz) + KVSTORE_HEADER_MAGIC.length ≤ E1.length := by
      rw [hm, hlE1]; omega
    have hcl1 : (writeBytes E1 KVSTORE_HEADER_MAGIC (p + (12 + ksz + vsz))).length =
        s.length := by rw [writeBytes_length _ _ _ hc1, hlE1]
    have hc2 : p + (12 + ksz + vsz) + 4 + (encLe 4 0).length ≤
        (writeBytes E1 KVSTORE_HEADER_MAGIC (p + (12 + ksz + vsz))).length := by
      rw [encLe_length, hcl1]; omega
    have hcl2 : (writeBytes (writeBytes E1 KVSTORE_HEADER_MAGIC (p + (12 + ksz + vsz)))
        (encLe 4 0) (p + (12 + ksz + vsz) + 4)).length = s.length := by
      rw [writeBytes_length _ _ _ hc2, hcl1]
    have hc3 : p + (12 + ksz + vsz) + 8 + (encLe 4 s2vs).length ≤
        (writeBytes (writeBytes E1 KVSTORE_HEADER_MAGIC (p + (12 + ksz + vsz))) (encLe 4 0)
          (p + (12 + ksz + vsz) + 4)).length := by
      rw [encLe_length, hcl2]; omega
    have hcl3 : (writeBytes (writeBytes (writeBytes E1 KVSTORE_HEADER_MAGIC
        (p + (12 + ksz + vsz))) (encLe 4 0) (p + (12 + ksz + vsz) + 4)) (encLe 4 s2vs)
        (p + (12 + ksz + vsz) + 8)).length = s.length := by
      rw [writeBytes_length _ _ _ hc3, hcl2]
    have hE2eq : ∀ x n, x + n ≤ p + (12 + ksz + vsz) →
        readBytes (writeBytes (writeBytes (writeBytes E1 KVSTORE_HEADER_MAGIC
          (p + (12 + ksz + vsz))) (encLe 4 0) (p + (12 + ksz + vsz) + 4)) (encLe 4 s2vs)
          (p + (12 + ksz + vsz) + 8)) x n = readBytes E1 x n := by
      intro x n hx
      rw [readBytes_writeBytes_before _ _ _ _ _ hc3 (by omega),
        readBytes_writeBytes_before _ _ _ _ _ hc2 (by omega),
        readBytes_writeBytes_before _ _ _ _ _ hc1 (by omega)]
    have hE2after : ∀ x n, p + 12 + kLen s p + vLen s p (kLen s p) ≤ x →
        readBytes (writeBytes (writeBytes (writeBytes E1 KVSTORE_HEADER_MAGIC
          (p + (12 + ksz + vsz))) (encLe 4 0) (p + (12 + ksz + vsz) + 4)) (encLe 4 s2vs)
          (p + (12 + ksz + vsz) + 8)) x n = readBytes E1 x n := by
      intro x n hx
      rw [readBytes_writeBytes_after _ _ _ _ _ hc3 (by rw [encLe_length]; omega),
        readBytes_writeBytes_after _ _ _ _ _ hc2 (by rw [encLe_length]; omega),
        readBytes_writeBytes_after _ _ _ _ _ hc1 (by rw [hm]; omega)]
    refine ⟨hcl3, ?_, ?_, ?_, ?_, ?_, ?_, ?_⟩
    · intro x n hx
      rw [hE2eq x n (by omega), hE1before x n hx]
    · intro x n hx
      rw [hE2after x n hx, hE1after x n (by omega)]
    · rw [hE2eq p 4 (by omega), hE1hdr]
    · rw [hE2eq (p + 4) 4 (by omega), hE1kf]
    · rw [hE2eq (p + 8) ksz (by omega), hE1kb]
    · rw [hE2eq (p + 8 + ksz) 4 (by omega), hE1vf]
    · rw [hE2eq (p + 12 + ksz) vsz (by omega), hE1vb]

theorem cbuf_self (l : List Nat) : cbuf l l.length = l := by
  simp [cbuf]

theorem map_mod_of_lt (l : List Nat) (h : ∀ b ∈ l, b < 256) :
    l.map (fun b => b % 256) = l := by
  induction l with
  | nil => rfl
  | cons b bs ih =>
    simp only [List.map_cons, List.cons.injEq]
    exact ⟨Nat.mod_eq_of_lt (h b (by simp)), ih (fun x hx => h x (by simp [hx]))⟩

theorem tiling_mem_decodeOk (s : List Nat) :
    ∀ n pos L q, tilingPositions s n pos = some L → q ∈ L → decodeOk s q := by
  intro n
  induction n with
  | zero => intro pos L q h; simp [tilingPositions] at h
  | succ n ih =>
    intro pos L q h hq
    by_cases hp : pos = s.length
    · unfold tilingPositions at h
      rw [if_pos hp] at h
      obtain rfl : ([] : List Nat) = L := by simpa using h
      simp at hq
    · obtain ⟨hr, L', hL', rfl⟩ := tiling_cons s n pos _ h hp
      rcases List.mem_cons.1 hq with rfl | hq'
      · exact (lengths_res_iff s q 0 0).1 hr
      · exact ih _ L' q hL' hq'

theorem tiling_next_le (s : List Nat) :
    ∀ n pos L, tilingPositions s n pos = some L → ∀ q ∈ L, ∀ r ∈ L, q < r →
      q + 12 + kLen s q + vLen s q (kLen s q) ≤ r := by
  intro n
  induction n with
  | zero => intro pos L h; simp [tilingPositions] at h
  | succ n ih =>
    intro pos L h q hq r hr hqr
    by_cases hp : pos = s.length
    · unfold tilingPositions at h
      rw [if_pos hp] at h
      obtain rfl : ([] : List Nat) = L := by simpa using h
      simp at hq
    · obtain ⟨hrr, L', hL', rfl⟩ := tiling_cons s n pos _ h hp
      rcases List.mem_cons.1 hq with rfl | hq'
      · rcases List.mem_cons.1 hr with rfl | hr'
        · omega
        · have := tiling_mem_ge s n _ L' r hL' hr'
          rw [calculate_slot_size_small (kLen_lt s q) (vLen_lt s q _)] at this
          omega
      · rcases List.mem_cons.1 hr with rfl | hr'
        · have := tiling_mem_ge s n _ L' q hL' hq'
          rw [calculate_slot_size_small (kLen_lt s r) (vLen_lt s r _)] at this
          omega
        · exact ih _ L' hL' q hq' r hr' hqr

theorem decode_transfer (s t : List Nat) (pos : Nat) (hlen : t.length = s.length)
    (hag : ∀ x n, pos ≤ x → x + n ≤ pos + 12 + kLen s pos + vLen s pos (kLen s pos) →
      readBytes t x n = readBytes s x n)
    (hdec : decodeOk s pos) :
    kLen t pos = kLen s pos ∧ vLen t pos (kLen s pos) = vLen s pos (kLen s pos) ∧
      decodeOk t pos := by
  have hk : kLen t pos = kLen s pos := by
    unfold kLen
    rw [hag (pos + 4) 4 (by omega) (by omega)]
  have hv : vLen t pos (kLen s pos) = vLen s pos (kLen s pos) := by
    unfold vLen
    rw [hag (pos + 8 + kLen s pos) 4 (by omega) (by omega)]
  refine ⟨hk, hv, ?_, ?_, ?_, ?_, ?_⟩
  · rw [hlen]; exact hdec.1
  · rw [hag pos 4 (by omega) (by omega)]; exact hdec.2.1
  · rw [hk, hlen]; exact hdec.2.2.1
  · rw [hk, hlen]; exact hdec.2.2.2.1
  · rw [hk, hv, hlen]; exact hdec.2.2.2.2

theorem matchesAt_transfer (s t : List Nat) (pos : Nat) (ck : List Nat) (cks : Nat)
    (hlen : t.length = s.length)
    (hag : ∀ x n, pos ≤ x → x + n ≤ pos + 12 + kLen s pos + vLen s pos (kLen s pos) →
      readBytes t x n = readBytes s x n)
    (hdec : decodeOk s pos) :
    (matchesAt t pos ck cks ↔ matchesAt s pos ck cks) := by
  obtain ⟨hk, hv, hdect⟩ := decode_transfer s t pos hlen hag hdec
  by_cases hcap : kLen s pos ≤ KVSTORE_MAX_KEY_SIZE
  · have hres_s : (read_slot s pos true KVSTORE_MAX_KEY_SIZE false 0).res = .OK := by
      rw [read_slot_res_iff]
      exact ⟨hdec, fun _ => hcap, by simp⟩
    have hres_t : (read_slot t pos true KVSTORE_MAX_KEY_SIZE false 0).res = .OK := by
      rw [read_slot_res_iff]
      exact ⟨hdect, fun _ => by rw [hk]; exact hcap, by simp⟩
    obtain ⟨hks, -, hkb_s, -⟩ := read_slot_ok_fields s pos true KVSTORE_MAX_KEY_SIZE false 0 hres_s
    obtain ⟨hkt, -, hkb_t, -⟩ := read_slot_ok_fields t pos true KVSTORE_MAX_KEY_SIZE false 0 hres_t
    unfold matchesAt
    rw [hres_s, hres_t, hks, hkt, hkb_s, hkb_t, hk]
    rw [if_pos rfl, if_pos rfl]
    rw [hag (pos + 8) (kLen s pos) (by omega) (by omega)]
  · have hres_s : ¬ (read_slot s pos true KVSTORE_MAX_KEY_SIZE false 0).res = .OK := by
      rw [read_slot_res_iff]
      rintro ⟨-, hc, -⟩
      exact hcap (hc rfl)
    have hres_t : ¬ (read_slot t pos true KVSTORE_MAX_KEY_SIZE false 0).res = .OK := by
      rw [read_slot_res_iff]
      rintro ⟨-, hc, -⟩
      rw [hk] at hc
      exact hcap (hc rfl)
    unfold matchesAt
    constructor
    · rintro ⟨h1, -⟩; exact absurd h1 hres_t
    · rintro ⟨h1, -⟩; exact absurd h1 hres_s

theorem chain_transfer (s t : List Nat) (ck : List Nat) (cks : Nat) (B : Nat)
    (hlen : t.length = s.length)
    (hag : ∀ x n, x + n ≤ B → readBytes t x n = readBytes s x n) :
    ∀ Qs pos m, scanChain s ck cks Qs pos m → m ≤ B → scanChain t ck cks Qs pos m := by
  intro Qs
  induction Qs with
  | nil => intro pos m h hm; exact h
  | cons q qs ih =>
    intro pos m h hm
    obtain ⟨hpq, hdec, hcap, hnm, hrest⟩ := h
    have hnext_le_m : q + 12 + kLen s q + vLen s q (kLen s q) ≤ m := by
      clear hag ih hdec hcap hnm hpq
      revert hrest
      generalize q + 12 + kLen s q + vLen s q (kLen s q) = start
      intro hrest
      induction qs generalizing start with
      | nil => exact le_of_eq hrest
      | cons r rs ih2 =>
        obtain ⟨rfl, hdec2, -, -, hrest2⟩ := hrest
        have h12 : start + 12 ≤ start + 12 + kLen s start + vLen s start (kLen s start) := by
          omega
        have := ih2 _ hrest2
        omega
    have hloc : ∀ x n, q ≤ x → x + n ≤ q + 12 + kLen s q + vLen s q (kLen s q) →
        readBytes t x n = readBytes s x n := by
      intro x n hx1 hx2
      exact hag x n (by omega)
    obtain ⟨hk, hv, hdect⟩ := decode_transfer s t q hlen hloc hdec
    refine ⟨hpq, hdect, by rw [hk]; exact hcap, ?_, ?_⟩
    · rw [matchesAt_transfer s t q ck cks hlen hloc hdec]
      exact hnm
    · rw [hk, hv]
      exact ih _ m hrest (by omega)

theorem tiling_chain_to (s : List Nat) (ck : List Nat) (cks : Nat) :
    ∀ n pos L m, tilingPositions s n pos = some L → m ∈ L →
      (∀ q ∈ L, q < m → kLen s q ≤ KVSTORE_MAX_KEY_SIZE ∧ ¬ matchesAt s q ck cks) →
      ∃ Qs, scanChain s ck cks Qs pos m := by
  intro n
  induction n with
  | zero => intro pos L m h; simp [tilingPositions] at h
  | succ n ih =>
    intro pos L m h hm hcond
    by_cases hp : pos = s.length
    · unfold tilingPositions at h
      rw [if_pos hp] at h
      obtain rfl : ([] : List Nat) = L := by simpa using h
      simp at hm
    · obtain ⟨hr, L', hL', rfl⟩ := tiling_cons s n pos _ h hp
      by_cases hpm : pos = m
      · exact ⟨[], hpm⟩
      · have hm' : m ∈ L' := by
          rcases List.mem_cons.1 hm with rfl | h2
          · exact absurd rfl hpm
          · exact h2
        have hposm : pos < m := by
          have := tiling_mem_ge s n _ L' m hL' hm'
          rw [calculate_slot_size_small (kLen_lt s pos) (vLen_lt s pos _)] at this
          omega
        obtain ⟨Qs, hQs⟩ := ih _ L' m hL' hm'
          (fun q hq hqm => hcond q (List.mem_cons_of_mem _ hq) hqm)
        refine ⟨pos :: Qs, rfl, (lengths_res_iff s pos 0 0).1 hr,
          (hcond pos (List.mem_cons_self _ _) hposm).1,
          (hcond pos (List.mem_cons_self _ _) hposm).2, ?_⟩
        rw [calculate_slot_size_small (kLen_lt s pos) (vLen_lt s pos _)] at hQs
        have heq : pos + (12 + kLen s pos + vLen s pos (kLen s pos)) =
            pos + 12 + kLen s pos + vLen s pos (kLen s pos) := by omega
        rw [heq] at hQs
        exact hQs

theorem splitStore_decode (s K V : List Nat) (p ksz vsz : Nat)
    (hdec : decodeOk s p) (hus : putUsable s p ksz vsz)
    (hv0 : vsz ≠ 0) (hk32 : ksz < 2 ^ 32) (hv32 : vsz < 2 ^ 32) :
    kLen (splitStore s p K ksz V vsz) p = ksz ∧
    vLen (splitStore s p K ksz V vsz) p ksz = vsz ∧
    decodeOk (splitStore s p K ksz V vsz) p := by
  obtain ⟨hlen, hbef, haft, hhdr, hkf, hkb, hvf, hvb⟩ :=
    splitStore_props s K V p ksz vsz hdec hus hv0 hk32 hv32
  have hsh := slotHead_fields s p hdec
  have hk0 : kLen s p = 0 := by rw [← hsh.1]; exact hus.1
  have hv0lt := vLen_lt s p (kLen s p)
  have hreq : (calculate_slot_size ksz vsz + calculate_slot_size 0 0) % W64 =
      12 + ksz + vsz + 12 := by
    rw [calculate_slot_size_small hk32 hv32, calculate_slot_size_zero]
    apply Nat.mod_eq_of_lt
    unfold W64
    norm_num at hk32 hv32 ⊢
    omega
  have hbig : 12 + ksz + vsz + 12 ≤ 12 + kLen s p + vLen s p (kLen s p) := by
    have h2 := hus.2
    unfold slotSizeAt at h2
    rw [hsh.1, hsh.2, calculate_slot_size_small (kLen_lt s p) hv0lt, hreq] at h2
    omega
  have hend : p + 12 + kLen s p + vLen s p (kLen s p) ≤ s.length := hdec.2.2.2.2
  have hkL : kLen (splitStore s p K ksz V vsz) p = ksz := by
    unfold kLen
    rw [hkf, decLe_encLe, Nat.mod_eq_of_lt hk32]
  have hvL : vLen (splitStore s p K ksz V vsz) p ksz = vsz := by
    unfold vLen
    rw [hvf, decLe_encLe, Nat.mod_eq_of_lt hv32]
  refine ⟨hkL, hvL, ?_, ?_, ?_, ?_, ?_⟩
  · rw [hlen]; omega
  · exact hhdr
  · rw [hkL, hlen]; omega
  · rw [hkL, hlen]; omega
  · rw [hkL, hvL, hlen]; omega

theorem splitStore_matchesAt (s K V : List Nat) (p : Nat)
    (hdec : decodeOk s p) (hus : putUsable s p K.length V.length)
    (hv0 : V.length ≠ 0) (hk16 : K.length ≤ KVSTORE_MAX_KEY_SIZE) (hv32 : V.length < 2 ^ 32)
    (hKb : ∀ b ∈ K, b < 256) :
    matchesAt (splitStore s p K K.length V V.length) p (cbuf K K.length) K.length := by
  have hk32 : K.length < 2 ^ 32 := by
    unfold KVSTORE_MAX_KEY_SIZE at hk16
    norm_num
    omega
  obtain ⟨hkL, hvL, hdect⟩ := splitStore_decode s K V p K.length V.length hdec hus hv0 hk32 hv32
  obtain ⟨-, -, -, -, -, hkb, -, -⟩ :=
    splitStore_props s K V p K.length V.length hdec hus hv0 hk32 hv32
  have hres : (read_slot (splitStore s p K K.length V V.length) p true
      KVSTORE_MAX_KEY_SIZE false 0).res = .OK := by
    rw [read_slot_res_iff]
    exact ⟨hdect, fun _ => by rw [hkL]; exact hk16, by simp⟩
  obtain ⟨hks, -, hkbytes, -⟩ := read_slot_ok_fields (splitStore s p K K.length V V.length) p
    true KVSTORE_MAX_KEY_SIZE false 0 hres
  refine ⟨hres, by rw [hks, hkL], ?_⟩
  rw [hkbytes, if_pos rfl, hks, hkL, hkb, cbuf_self, map_mod_of_lt K hKb, List.take_length]

theorem splitStore_get (s K V : List Nat) (p cap : Nat)
    (hdec : decodeOk s p) (hus : putUsable s p K.length V.length)
    (hv0 : V.length ≠ 0) (hk16 : K.length ≤ KVSTORE_MAX_KEY_SIZE) (hv32 : V.length < 2 ^ 32)
    (hVb : ∀ b ∈ V, b < 256) (hcap : V.length ≤ cap) :
    (read_slot (splitStore s p K K.length V V.length) p false 0 true cap).res = .OK ∧
    (read_slot (splitStore s p K K.length V V.length) p false 0 true cap).value_size =
      V.length ∧
    (read_slot (splitStore s p K K.length V V.length) p false 0 true cap).valueBytes =
      some V := by
  have hk32 : K.length < 2 ^ 32 := by
    unfold KVSTORE_MAX_KEY_SIZE at hk16
    norm_num
    omega
  obtain ⟨hkL, hvL, hdect⟩ := splitStore_decode s K V p K.length V.length hdec hus hv0 hk32 hv32
  obtain ⟨-, -, -, -, -, -, -, hvb⟩ :=
    splitStore_props s K V p K.length V.length hdec hus hv0 hk32 hv32
  have hres : (read_slot (splitStore s p K K.length V V.length) p false 0 true cap).res =
      .OK := by
    rw [read_slot_res_iff]
    refine ⟨hdect, by simp, fun _ => ?_⟩
    rw [hkL, hvL]
    exact hcap
  obtain ⟨hks, hvs, -, hvbytes⟩ := read_slot_ok_fields (splitStore s p K K.length V V.length)
    p false 0 true cap hres
  refine ⟨hres, by rw [hvs, hkL, hvL], ?_⟩
  rw [hvbytes, if_pos rfl, hkL, hvL, hvb, cbuf_self, map_mod_of_lt V hVb]

set_option maxHeartbeats 2000000 in
/-- Claim C2, amended: round-trip holds once no slot already matches the key.
For a key K (1..KVSTORE_MAX_KEY_SIZE bytes) and a non-empty value V, on a
store satisfying the packing invariant whose occupied slots all have key
length at most KVSTORE_MAX_KEY_SIZE, none of which matches K, and that has a
usable free slot (first such at offset p), `kvstore_put(K, V)` succeeds, and
`kvstore_search(K)` followed by `kvstore_get` with a large-enough value
buffer returns exactly V and its length. -/
theorem c2_round_trip_amended
    (s K V : List Nat) (L : List Nat) (p : Nat) (cap : Nat) (c : KvStoreCursor)
    (hL : slotPositions s = some L)
    (hk1 : 1 ≤ K.length) (hk16 : K.length ≤ KVSTORE_MAX_KEY_SIZE)
    (hKb : ∀ b ∈ K, b < 256) (hVb : ∀ b ∈ V, b < 256)
    (hv1 : 1 ≤ V.length) (hv32 : V.length < 2 ^ 32)
    (hklens : ∀ q ∈ L, kLen s q ≤ KVSTORE_MAX_KEY_SIZE)
    (hnoK : ∀ q ∈ L, ¬ matchesAt s q (cbuf K K.length) K.length)
    (hp : p ∈ L) (hus : putUsable s p K.length V.length)
    (hpfirst : ∀ q ∈ L, q < p → putSkips s q K.length V.length)
    (hcap : V.length ≤ cap) :
    (kvstore_put s (some K) K.length (some V) V.length).res = .OK ∧
    (kvstore_search (kvstore_put s (some K) K.length (some V) V.length).store c
      (some K) K.length).1 = .OK ∧
    (kvstore_get (kvstore_put s (some K) K.length (some V) V.length).store
      (kvstore_search (kvstore_put s (some K) K.length (some V) V.length).store c
        (some K) K.length).2.1 false false cap).1 = .OK ∧
    (kvstore_get (kvstore_put s (some K) K.length (some V) V.length).store
      (kvstore_search (kvstore_put s (some K) K.length (some V) V.length).store c
        (some K) K.length).2.1 false false cap).2.1 = V.length ∧
    (kvstore_get (kvstore_put s (some K) K.length (some V) V.length).store
      (kvstore_search (kvstore_put s (some K) K.length (some V) V.length).store c
        (some K) K.length).2.1 false false cap).2.2.1 = some V := by
  have hk32 : K.length < 2 ^ 32 := by
    unfold KVSTORE_MAX_KEY_SIZE at hk16
    norm_num
    omega
  have hv0 : V.length ≠ 0 := by omega
  have hkne : K.length ≠ 0 := by omega
  have hkmax : ¬ K.length > KVSTORE_MAX_KEY_SIZE := not_lt.2 hk16
  unfold slotPositions at hL
  have hdecp : decodeOk s p := tiling_mem_decodeOk s (s.length + 1) 0 L p hL hp
  obtain ⟨lg, hloop⟩ := put_loop_reach_usable s K K.length V V.length p hus (s.length + 1)
    0 L 0 0 (s.length + 1) hL hp (fun q hq hqp => hpfirst q hq hqp) (by omega) (by omega)
  have hput := kvstore_put_of_loop s K V K.length V.length
    ⟨.OK, splitStore s p K K.length V V.length, lg⟩ hkne hv0 hkmax hloop
  obtain ⟨hlen, hbef, haft, -, -, -, -, -⟩ :=
    splitStore_props s K V p K.length V.length hdecp hus hv0 hk32 hv32
  obtain ⟨Qs, hQs⟩ := tiling_chain_to s (cbuf K K.length) K.length (s.length + 1) 0 L p hL hp
    (fun q hq hqp => ⟨hklens q hq, hnoK q hq⟩)
  have hchain := chain_transfer s (splitStore s p K K.length V V.length) (cbuf K K.length)
    K.length p hlen (fun x n hxn => hbef x n hxn) Qs 0 p hQs (le_refl p)
  have hmatch := splitStore_matchesAt s K V p hdecp hus hv0 hk16 hv32 hKb
  obtain ⟨lg2, hsearchloop⟩ := search_loop_chain_ok (splitStore s p K K.length V V.length)
    (cbuf K K.length) K.length Qs 0 p ((splitStore s p K K.length V V.length).length + 1)
    hchain hmatch (by omega) (by omega)
  have hvalid : ¬ ((some K : Option (List Nat)) = none ∨ K.length = 0 ∨
      K.length > KVSTORE_MAX_KEY_SIZE) := by
    push_neg
    exact ⟨by simp, hkne, hk16⟩
  have hsearch : kvstore_search (splitStore s p K K.length V V.length) c (some K) K.length =
      (.OK, ⟨p, cbuf K K.length, K.length⟩, lg2) := by
    unfold kvstore_search
    rw [if_neg hvalid]
    unfold kvstore_search_next
    simp only [bk_size, Option.getD_some]
    rw [hsearchloop]
  have hget := splitStore_get s K V p cap hdecp hus hv0 hk16 hv32 hVb hcap
  rw [hput]
  dsimp only
  rw [hsearch]
  dsimp only
  have hcapne : ¬ (false = true ∨ false = true ∨ cap = 0) := by
    simp
    omega
  unfold kvstore_get
  rw [if_neg hcapne]
  dsimp only
  exact ⟨rfl, rfl, hget.1, hget.2.1, hget.2.2⟩

set_option maxHeartbeats 2000000 in
/-- Claim C8: `kvstore_put` performs no deduplication — inserting a key K
that already matches an occupied slot at offset q still succeeds (given a
usable free slot at offset p), creating a second, distinct slot matching K —
and `kvstore_search(K)` afterwards parks the cursor on the first matching
slot in scan order from offset 0 (`min p q`). -/
theorem c8_no_dedup_first_match
    (s K V : List Nat) (L : List Nat) (p q : Nat) (c : KvStoreCursor)
    (hL : slotPositions s = some L)
    (hk1 : 1 ≤ K.length) (hk16 : K.length ≤ KVSTORE_MAX_KEY_SIZE)
    (hKb : ∀ b ∈ K, b < 256)
    (hv1 : 1 ≤ V.length) (hv32 : V.length < 2 ^ 32)
    (hklens : ∀ r ∈ L, kLen s r ≤ KVSTORE_MAX_KEY_SIZE)
    (hq : q ∈ L) (hqmatch : matchesAt s q (cbuf K K.length) K.length)
    (hqfirst : ∀ r ∈ L, r < q → ¬ matchesAt s r (cbuf K K.length) K.length)
    (hp : p ∈ L) (hus : putUsable s p K.length V.length)
    (hpfirst : ∀ r ∈ L, r < p → putSkips s r K.length V.length) :
    (kvstore_put s (some K) K.length (some V) V.length).res = .OK ∧
    p ≠ q ∧
    matchesAt (kvstore_put s (some K) K.length (some V) V.length).store p
      (cbuf K K.length) K.length ∧
    matchesAt (kvstore_put s (some K) K.length (some V) V.length).store q
      (cbuf K K.length) K.length ∧
    (kvstore_search (kvstore_put s (some K) K.length (some V) V.length).store c
      (some K) K.length).1 = .OK ∧
    (kvstore_search (kvstore_put s (some K) K.length (some V) V.length).store c
      (some K) K.length).2.1.position = min p q := by
  have hk32 : K.length < 2 ^ 32 := by
    unfold KVSTORE_MAX_KEY_SIZE at hk16
    norm_num
    omega
  have hv0 : V.length ≠ 0 := by omega
  have hkne : K.length ≠ 0 := by omega
  have hkmax : ¬ K.length > KVSTORE_MAX_KEY_SIZE := not_lt.2 hk16
  unfold slotPositions at hL
  have hdecp : decodeOk s p := tiling_mem_decodeOk s (s.length + 1) 0 L p hL hp
  have hdecq : decodeOk s q := tiling_mem_decodeOk s (s.length + 1) 0 L q hL hq
  -- p is free, q is occupied with key K, so p ≠ q
  have hkp0 : kLen s p = 0 := by rw [← (slotHead_fields s p hdecp).1]; exact hus.1
  have hkq : kLen s q = K.length := by
    obtain ⟨hres, hksz, -⟩ := hqmatch
    obtain ⟨hks, -, -, -⟩ := read_slot_ok_fields s q true KVSTORE_MAX_KEY_SIZE false 0 hres
    rw [← hksz, hks]
  have hpq : p ≠ q := by
    intro h
    rw [h, hkq] at hkp0
    omega
  -- put
  obtain ⟨lg, hloop⟩ := put_loop_reach_usable s K K.length V V.length p hus (s.length + 1)
    0 L 0 0 (s.length + 1) hL hp (fun r hr hrp => hpfirst r hr hrp) (by omega) (by omega)
  have hput := kvstore_put_of_loop s K V K.length V.length
    ⟨.OK, splitStore s p K K.length V V.length, lg⟩ hkne hv0 hkmax hloop
  obtain ⟨hlen, hbef, haft, -, -, -, -, -⟩ :=
    splitStore_props s K V p K.length V.length hdecp hus hv0 hk32 hv32
  have hmatchp := splitStore_matchesAt s K V p hdecp hus hv0 hk16 hv32 hKb
  -- the old matching slot survives
  have hmatchq : matchesAt (splitStore s p K K.length V V.length) q
      (cbuf K K.length) K.length := by
    rcases lt_or_gt_of_ne hpq with hlt | hgt
    · -- p < q : q lies after the rewritten region
      have hnext := tiling_next_le s (s.length + 1) 0 L hL p hp q hq hlt
      rw [matchesAt_transfer s (splitStore s p K K.length V V.length) q (cbuf K K.length)
        K.length hlen (fun x n hx _ => haft x n (by omega)) hdecq]
      exact hqmatch
    · -- q < p : q lies before the rewritten region
      have hnext := tiling_next_le s (s.length + 1) 0 L hL q hq p hp hgt
      rw [matchesAt_transfer s (splitStore s p K K.length V V.length) q (cbuf K K.length)
        K.length hlen (fun x n _ hx2 => hbef x n (by omega)) hdecq]
      exact hqmatch
  -- search stops at the first match in scan order
  have hvalid : ¬ ((some K : Option (List Nat)) = none ∨ K.length = 0 ∨
      K.length > KVSTORE_MAX_KEY_SIZE) := by
    push_neg
    exact ⟨by simp, hkne, hk16⟩
  have hsearch : ∃ lg2, kvstore_search (splitStore s p K K.length V V.length) c
      (some K) K.length = (.OK, ⟨min p q, cbuf K K.length, K.length⟩, lg2) := by
    rcases lt_or_gt_of_ne hpq with hlt | hgt
    · -- p < q : the new slot at p is the first match
      obtain ⟨Qs, hQs⟩ := tiling_chain_to s (cbuf K K.length) K.length (s.length + 1) 0 L p
        hL hp (fun r hr hrp => ⟨hklens r hr, hqfirst r hr (by omega)⟩)
      have hchain := chain_transfer s (splitStore s p K K.length V V.length)
        (cbuf K K.length) K.length p hlen (fun x n hxn => hbef x n hxn) Qs 0 p hQs (le_refl p)
      obtain ⟨lg2, hsl⟩ := search_loop_chain_ok (splitStore s p K K.length V V.length)
        (cbuf K K.length) K.length Qs 0 p ((splitStore s p K K.length V V.length).length + 1)
        hchain hmatchp (by omega) (by omega)
      refine ⟨lg2, ?_⟩
      unfold kvstore_search
      rw [if_neg hvalid]
      unfold kvstore_search_next
      simp only [bk_size, Option.getD_some]
      rw [hsl]
      rw [show min p q = p from by omega]
    · -- q < p : the old slot at q is the first match
      have hchainS : ∃ Qs, scanChain s (cbuf K K.length) K.length Qs 0 q :=
        tiling_chain_to s (cbuf K K.length) K.length (s.length + 1) 0 L q hL hq
          (fun r hr hrq => ⟨hklens r hr, hqfirst r hr hrq⟩)
      obtain ⟨Qs, hQs⟩ := hchainS
      have hchain := chain_transfer s (splitStore s p K K.length V V.length)
        (cbuf K K.length) K.length p hlen (fun x n hxn => hbef x n hxn) Qs 0 q hQs (by omega)
      obtain ⟨lg2, hsl⟩ := search_loop_chain_ok (splitStore s p K K.length V V.length)
        (cbuf K K.length) K.length Qs 0 q ((splitStore s p K K.length V V.length).length + 1)
        hchain hmatchq (by omega) (by omega)
      refine ⟨lg2, ?_⟩
      unfold kvstore_search
      rw [if_neg hvalid]
      unfold kvstore_search_next
      simp only [bk_size, Option.getD_some]
      rw [hsl]
      rw [show min p q = q from by omega]
  obtain ⟨lg2, hsearch⟩ := hsearch
  rw [hput]
  dsimp only
  rw [hsearch]
  exact ⟨rfl, hpq, hmatchp, hmatchq, rfl, rfl⟩

set_option maxHeartbeats 1000000 in
/-- Claim C6: on a store satisfying the packing invariant, searching for a
key that matches no slot terminates — the scan loop returns within its fuel,
which equals termination of the C `while (1)` loop — and reports the
non-match via decode failure, returning KVSTORE_FAILED (never
KVSTORE_NOT_FOUND, and never looping forever). -/
theorem c6_search_absent (s K : List Nat) (L : List Nat) (ksize : Nat) (c : KvStoreCursor)
    (hL : slotPositions s = some L)
    (hk1 : 1 ≤ ksize) (hk16 : ksize ≤ KVSTORE_MAX_KEY_SIZE)
    (hnm : ∀ q ∈ L, ¬ matchesAt s q (cbuf K ksize) ksize) :
    (kvstore_search s c (some K) ksize).1 = .FAILED ∧
    search_loop s (cbuf K ksize) ksize (bk_size s + 1) 0 ≠ none := by
  unfold slotPositions at hL
  obtain ⟨Qs, m, hchain, hm⟩ :=
    tiling_chain_fail s (cbuf K ksize) ksize (s.length + 1) 0 L hL hnm
  obtain ⟨lg, hsl⟩ := search_loop_chain_fail s (cbuf K ksize) ksize Qs 0 m (s.length + 1)
    hchain hm (by omega) (by omega)
  have hvalid : ¬ ((some K : Option (List Nat)) = none ∨ ksize = 0 ∨
      ksize > KVSTORE_MAX_KEY_SIZE) := by
    push_neg
    exact ⟨by simp, by omega, hk16⟩
  constructor
  · unfold kvstore_search
    rw [if_neg hvalid]
    unfold kvstore_search_next
    simp only [bk_size, Option.getD_some]
    rw [hsl]
  · simp only [bk_size]
    rw [hsl]
    simp

/-- Claim C7: if `kvstore_put`'s forward scan from offset 0 reaches the end
of the backend without a usable free slot (every slot is occupied or too
small to split), the end-of-backend encode of the new slot is rejected on
bounds and `kvstore_put` returns KVSTORE_NOT_FOUND, leaving the backend
unchanged. -/
theorem c7_put_full (s K V : List Nat) (L : List Nat)
    (hL : slotPositions s = some L)
    (hk1 : 1 ≤ K.length) (hk16 : K.length ≤ KVSTORE_MAX_KEY_SIZE)
    (hv1 : 1 ≤ V.length) (hv32 : V.length < 2 ^ 32)
    (hall : ∀ q ∈ L, putSkips s q K.length V.length) :
    (kvstore_put s (some K) K.length (some V) V.length).res = .NOT_FOUND ∧
    (kvstore_put s (some K) K.length (some V) V.length).store = s := by
  have hk32 : K.length < 2 ^ 32 := by
    unfold KVSTORE_MAX_KEY_SIZE at hk16
    norm_num
    omega
  unfold slotPositions at hL
  obtain ⟨lg, hloop⟩ := put_loop_skips_all s K K.length V V.length (by omega) hk32 hv32
    (s.length + 1) 0 L 0 0 (s.length + 1) hL hall (by omega) (by omega)
  have hput := kvstore_put_of_loop s K V K.length V.length ⟨.NOT_FOUND, s, lg⟩
    (by omega) (by omega) (not_lt.2 hk16) hloop
  rw [hput]
  exact ⟨rfl, rfl⟩

/-- Claim C9: `kvstore_put` with a NULL key, zero key size, NULL value, zero
value size, or key size above KVSTORE_MAX_KEY_SIZE returns KVSTORE_BAD_ARG
with an empty backend access log — no backend call at all — so the backend
contents are exactly unchanged. -/
theorem c9_put_bad_arg (s : List Nat) (key : Option (List Nat)) (key_size : Nat)
    (value : Option (List Nat)) (value_size : Nat)
    (h : key = none ∨ key_size = 0 ∨ value = none ∨ value_size = 0 ∨
      key_size > KVSTORE_MAX_KEY_SIZE) :
    kvstore_put s key key_size value value_size = ⟨.BAD_ARG, s, []⟩ := by
  unfold kvstore_put
  rw [if_pos h]

theorem kvstore_advance_log_no_wr (s : List Nat) (c : KvStoreCursor) :
    ∀ a ∈ (kvstore_advance s c).2.2, a.isWr = false := by
  unfold kvstore_advance
  dsimp only
  split_ifs <;> exact read_slot_log_no_wr s c.position false 0 false 0

set_option maxHeartbeats 1000000 in
theorem search_loop_log_no_wr (s ck : List Nat) (cks : Nat) :
    ∀ fuel pos o, search_loop s ck cks fuel pos = some o →
      ∀ a ∈ o.2.2, a.isWr = false := by
  intro fuel
  induction fuel with
  | zero => intro pos o h; simp [search_loop] at h
  | succ fuel ih =>
    intro pos o h a ha
    unfold search_loop at h
    dsimp only at h
    by_cases hres : (read_slot s pos true KVSTORE_MAX_KEY_SIZE false 0).res ≠ .OK
    · rw [if_pos hres] at h
      obtain rfl := (Option.some_inj.1 h).symm
      exact read_slot_log_no_wr s pos true KVSTORE_MAX_KEY_SIZE false 0 a ha
    · rw [if_neg hres] at h
      by_cases hkey : (read_slot s pos true KVSTORE_MAX_KEY_SIZE false 0).key_size ≠ cks
      · rw [if_pos hkey] at h
        cases hrec : search_loop s ck cks fuel
            (kvstore_advance s ⟨pos, ck, cks⟩).2.1.position with
        | none => rw [hrec] at h; simp at h
        | some o' =>
          rw [hrec] at h
          simp only [Option.map_some'] at h
          obtain rfl := (Option.some_inj.1 h).symm
          simp only [List.mem_append] at ha
          rcases ha with (ha | ha) | ha
          · exact read_slot_log_no_wr s pos true KVSTORE_MAX_KEY_SIZE false 0 a ha
          · exact kvstore_advance_log_no_wr s ⟨pos, ck, cks⟩ a ha
          · exact ih _ o' hrec a ha
      · rw [if_neg hkey] at h
        by_cases hbytes : (read_slot s pos true KVSTORE_MAX_KEY_SIZE false 0).keyBytes ≠
            some (ck.take (read_slot s pos true KVSTORE_MAX_KEY_SIZE false 0).key_size)
        · rw [if_pos hbytes] at h
          cases hrec : search_loop s ck cks fuel
              (kvstore_advance s ⟨pos, ck, cks⟩).2.1.position with
          | none => rw [hrec] at h; simp at h
          | some o' =>
            rw [hrec] at h
            simp only [Option.map_some'] at h
            obtain rfl := (Option.some_inj.1 h).symm
            simp only [List.mem_append] at ha
            rcases ha with (ha | ha) | ha
            · exact read_slot_log_no_wr s pos true KVSTORE_MAX_KEY_SIZE false 0 a ha
            · exact kvstore_advance_log_no_wr s ⟨pos, ck, cks⟩ a ha
            · exact ih _ o' hrec a ha
        · rw [if_neg hbytes] at h
          obtain rfl := (Option.some_inj.1 h).symm
          exact read_slot_log_no_wr s pos true KVSTORE_MAX_KEY_SIZE false 0 a ha

theorem kvstore_search_next_log_no_wr (s : List Nat) (c : KvStoreCursor) :
    ∀ a ∈ (kvstore_search_next s c).2.2, a.isWr = false := by
  unfold kvstore_search_next
  cases hrec : search_loop s c.key c.key_size (bk_size s + 1) c.position with
  | none => simp
  | some o =>
    dsimp only
    exact fun a ha => search_loop_log_no_wr s c.key c.key_size _ _ o hrec a ha

theorem kvstore_search_log_no_wr (s : List Nat) (c : KvStoreCursor) (key : Option (List Nat))
    (key_size : Nat) : ∀ a ∈ (kvstore_search s c key key_size).2.2, a.isWr = false := by
  unfold kvstore_search
  split_ifs
  · simp
  · exact kvstore_search_next_log_no_wr s _

/-- Claim C10: the read path is write-free. `kvstore_search`,
`kvstore_search_next`, `kvstore_advance`, `kvstore_get` and `kvstore_get_kv`
never invoke the backend's write operation: for every store, cursor and
arguments, their backend access logs contain no write, so the backend
contents after any of these calls equal the contents before. -/
theorem c10_read_path_write_free (s : List Nat) (c : KvStoreCursor)
    (key : Option (List Nat)) (key_size : Nat) (valueNull value_sizeNull : Bool)
    (value_size : Nat) (keyNull : Bool) (gkv_key_size : Nat) (gkv_valueNull : Bool)
    (gkv_value_size : Nat) :
    (∀ a ∈ (kvstore_search s c key key_size).2.2, a.isWr = false) ∧
    (∀ a ∈ (kvstore_search_next s c).2.2, a.isWr = false) ∧
    (∀ a ∈ (kvstore_advance s c).2.2, a.isWr = false) ∧
    (∀ a ∈ (kvstore_get s c valueNull value_sizeNull value_size).2.2.2, a.isWr = false) ∧
    (∀ a ∈ (kvstore_get_kv s c keyNull gkv_key_size gkv_valueNull gkv_value_size).log,
      a.isWr = false) := by
  refine ⟨kvstore_search_log_no_wr s c key key_size, kvstore_search_next_log_no_wr s c,
    kvstore_advance_log_no_wr s c, ?_, ?_⟩
  · unfold kvstore_get
    split_ifs
    · simp
    · exact read_slot_log_no_wr s c.position false 0 true value_size
  · unfold kvstore_get_kv
    exact read_slot_log_no_wr s c.position (!keyNull) gkv_key_size (!gkv_valueNull)
      gkv_value_size

set_option maxHeartbeats 2000000 in
/-- Claim C1 (code bug): the packing invariant is violated by the code.  On a
36-byte backend, `kvstore_prepare` establishes the invariant, and a
`kvstore_put` whose pair needs 24 bytes finds the 36-byte free slot usable
(36 is not smaller than 24 + 12), splits it, and returns KVSTORE_OK — but the
trailing free slot would have a zero-length value, so its `write_slot` is
rejected with KVSTORE_BAD_ARG (and the error discarded), leaving 12 trailing
bytes that no longer decode as a slot: sequential decoding no longer consumes
exactly `size()` bytes after a successful put. -/
theorem c1_packing_invariant_broken_by_put :
    packingInv (kvstore_prepare (List.replicate 36 0)).store = true ∧
    (kvstore_put (kvstore_prepare (List.replicate 36 0)).store (some [1]) 1
      (some (List.replicate 11 2)) 11).res = .OK ∧
    packingInv (kvstore_put (kvstore_prepare (List.replicate 36 0)).store (some [1]) 1
      (some (List.replicate 11 2)) 11).store = false := by
  decide

set_option maxHeartbeats 2000000 in
/-- Claim C3 (code bug): failing slot-encode sub-steps are not propagated.
On a 12-byte backend, the free-slot encode performed by `kvstore_prepare`
fails with KVSTORE_BAD_ARG (zero-length value), yet `kvstore_prepare` returns
KVSTORE_OK and leaves the backend unwritten; likewise the trailing free-slot
encode of `kvstore_put`'s split path (a `write_slot` with value size 0) fails
with KVSTORE_BAD_ARG while the enclosing `kvstore_put` returns KVSTORE_OK. -/
theorem c3_encode_failure_swallowed :
    (write_slot (List.replicate 12 0) 0 none 0 none
      (calculate_value_size (bk_size (List.replicate 12 0)) 0)).res = .BAD_ARG ∧
    (kvstore_prepare (List.replicate 12 0)).res = .OK ∧
    (kvstore_put (kvstore_prepare (List.replicate 36 0)).store (some [1]) 1
      (some (List.replicate 11 2)) 11).res = .OK ∧
    (write_slot (write_slot (kvstore_prepare (List.replicate 36 0)).store 0 (some [1]) 1
      (some (List.replicate 11 2)) 11).store 24 none 0 none 0).res = .BAD_ARG := by
  decide

set_option maxHeartbeats 2000000 in
/-- Claim C5 (code bug): the 12-byte boundary scenario does not behave as
specified.  `kvstore_prepare` on a 12-byte backend computes a free-slot value
length of 0, so its `write_slot` fails with KVSTORE_BAD_ARG (silently): the
free slot is never written and the backend is left untouched.  The subsequent
`kvstore_put` then fails with KVSTORE_FAILED (header mismatch while scanning),
not with the capacity-exhausted KVSTORE_NOT_FOUND the spec requires. -/
theorem c5_boundary_scenario_diverges :
    (kvstore_prepare (List.replicate 12 0)).res = .OK ∧
    (kvstore_prepare (List.replicate 12 0)).store = List.replicate 12 0 ∧
    (kvstore_put (kvstore_prepare (List.replicate 12 0)).store (some [1]) 1
      (some [2]) 1).res = .FAILED ∧
    (kvstore_put (kvstore_prepare (List.replicate 12 0)).store (some [1]) 1
      (some [2]) 1).res ≠ .NOT_FOUND ∧
    (kvstore_put (kvstore_prepare (List.replicate 12 0)).store (some [1]) 1
      (some [2]) 1).store = List.replicate 12 0 := by
  decide

set_option maxHeartbeats 4000000 in
/-- Claim C2, counterexample: the round-trip property fails as stated when
the key is already present.  On a prepared 60-byte backend holding the pair
([1], [9]), a further successful `kvstore_put([1], [7,7])` followed by
`kvstore_search([1])` and `kvstore_get` (buffer capacity 10) returns the value
[9] of the earliest slot with key [1], not the just-written [7,7] — even
though the store satisfied the packing invariant and the put succeeded. -/
theorem c2_counterexample :
    packingInv (kvstore_put (kvstore_prepare (List.replicate 60 0)).store (some [1]) 1
      (some [9]) 1).store = true ∧
    (kvstore_put (kvstore_put (kvstore_prepare (List.replicate 60 0)).store (some [1]) 1
      (some [9]) 1).store (some [1]) 1 (some [7, 7]) 2).res = .OK ∧
    (kvstore_search (kvstore_put (kvstore_put (kvstore_prepare
      (List.replicate 60 0)).store (some [1]) 1 (some [9]) 1).store (some [1]) 1
      (some [7, 7]) 2).store ⟨0, [], 0⟩ (some [1]) 1).1 = .OK ∧
    (kvstore_get (kvstore_put (kvstore_put (kvstore_prepare
      (List.replicate 60 0)).store (some [1]) 1 (some [9]) 1).store (some [1]) 1
      (some [7, 7]) 2).store
      (kvstore_search (kvstore_put (kvstore_put (kvstore_prepare
        (List.replicate 60 0)).store (some [1]) 1 (some [9]) 1).store (some [1]) 1
        (some [7, 7]) 2).store ⟨0, [], 0⟩ (some [1]) 1).2.1
      false false 10).2.2.1 = some [9] ∧
    (kvstore_get (kvstore_put (kvstore_put (kvstore_prepare
      (List.replicate 60 0)).store (some [1]) 1 (some [9]) 1).store (some [1]) 1
      (some [7, 7]) 2).store
      (kvstore_search (kvstore_put (kvstore_put (kvstore_prepare
        (List.replicate 60 0)).store (some [1]) 1 (some [9]) 1).store (some [1]) 1
        (some [7, 7]) 2).store ⟨0, [], 0⟩ (some [1]) 1).2.1
      false false 10).2.2.1 ≠ some [7, 7] := by
  decide

/-- Claim C4, counterexample: a failing decode can leave a partial length.
On a 12-byte backend holding a valid header and a key-length field of 100,
`read_slot` (lengths only, key-length pointee 5 on entry) fails with
KVSTORE_FAILED at the key bounds check, but has already overwritten the
caller's key-length out-parameter with 100. -/
theorem c4_counterexample :
    (read_slot [0xf8, 0x2a, 0x93, 0x11, 100, 0, 0, 0, 0, 0, 0, 0] 0 false 5 false 7).res
      ≠ .OK ∧
    (read_slot [0xf8, 0x2a, 0x93, 0x11, 100, 0, 0, 0, 0, 0, 0, 0] 0 false 5 false 7).key_size
      = 100 ∧
    (read_slot [0xf8, 0x2a, 0x93, 0x11, 100, 0, 0, 0, 0, 0, 0, 0] 0 false 5 false 7).key_size
      ≠ 5 := by
  decide

set_option maxHeartbeats 4000000 in
/-- Witness for claim C2's amended theorem: on a prepared 40-byte store, the
pair ([3], [5]) rounds trip. -/
theorem c2_round_trip_amended_witness :
    slotPositions (kvstore_prepare (List.replicate 40 0)).store = some [0] ∧
    putUsable (kvstore_prepare (List.replicate 40 0)).store 0 ([3] : List Nat).length
      ([5] : List Nat).length ∧
    ((kvstore_put (kvstore_prepare (List.replicate 40 0)).store (some [3])
      ([3] : List Nat).length (some [5]) ([5] : List Nat).length).res = .OK ∧
    (kvstore_search (kvstore_put (kvstore_prepare (List.replicate 40 0)).store (some [3])
      ([3] : List Nat).length (some [5]) ([5] : List Nat).length).store ⟨0, [], 0⟩
      (some [3]) ([3] : List Nat).length).1 = .OK ∧
    (kvstore_get (kvstore_put (kvstore_prepare (List.replicate 40 0)).store (some [3])
      ([3] : List Nat).length (some [5]) ([5] : List Nat).length).store
      (kvstore_search (kvstore_put (kvstore_prepare (List.replicate 40 0)).store (some [3])
        ([3] : List Nat).length (some [5]) ([5] : List Nat).length).store ⟨0, [], 0⟩
        (some [3]) ([3] : List Nat).length).2.1 false false 4).1 = .OK ∧
    (kvstore_get (kvstore_put (kvstore_prepare (List.replicate 40 0)).store (some [3])
      ([3] : List Nat).length (some [5]) ([5] : List Nat).length).store
      (kvstore_search (kvstore_put (kvstore_prepare (List.replicate 40 0)).store (some [3])
        ([3] : List Nat).length (some [5]) ([5] : List Nat).length).store ⟨0, [], 0⟩
        (some [3]) ([3] : List Nat).length).2.1 false false 4).2.1 =
      ([5] : List Nat).length ∧
    (kvstore_get (kvstore_put (kvstore_prepare (List.replicate 40 0)).store (some [3])
      ([3] : List Nat).length (some [5]) ([5] : List Nat).length).store
      (kvstore_search (kvstore_put (kvstore_prepare (List.replicate 40 0)).store (some [3])
        ([3] : List Nat).length (some [5]) ([5] : List Nat).length).store ⟨0, [], 0⟩
        (some [3]) ([3] : List Nat).length).2.1 false false 4).2.2.1 = some [5]) :=
  ⟨by decide, by decide,
    c2_round_trip_amended (kvstore_prepare (List.replicate 40 0)).store [3] [5] [0] 0 4
      ⟨0, [], 0⟩ (by decide) (by decide) (by decide) (by decide) (by decide) (by decide)
      (by decide) (by decide) (by decide) (by decide) (by decide) (by decide) (by decide)⟩

/-- Witness for claim C4's amended theorem: on an empty backend the decode
fails and both out-parameters are unchanged. -/
theorem c4_fail_partial_lengths_witness :
    (read_slot [] 0 false 3 false 4).res ≠ .OK ∧
    (((read_slot [] 0 false 3 false 4).key_size = 3 ∧
      (read_slot [] 0 false 3 false 4).value_size = 4) ∨
    ((read_slot [] 0 false 3 false 4).key_size = kLen [] 0 ∧
      ((read_slot [] 0 false 3 false 4).value_size = 4 ∨
        (read_slot [] 0 false 3 false 4).value_size = vLen [] 0 (kLen [] 0)))) :=
  ⟨by decide, c4_fail_partial_lengths [] 0 false 3 false 4 (by decide)⟩

set_option maxHeartbeats 2000000 in
/-- Witness for claim C6's theorem: searching a prepared 20-byte store for
the absent key [5] fails. -/
theorem c6_search_absent_witness :
    slotPositions (kvstore_prepare (List.replicate 20 0)).store = some [0] ∧
    (kvstore_search (kvstore_prepare (List.replicate 20 0)).store ⟨0, [], 0⟩
      (some [5]) 1).1 = .FAILED :=
  ⟨by decide,
    (c6_search_absent (kvstore_prepare (List.replicate 20 0)).store [5] [0] 1 ⟨0, [], 0⟩
      (by decide) (by decide) (by decide) (by decide)).1⟩

set_option maxHeartbeats 2000000 in
/-- Witness for claim C7's theorem: a prepared 13-byte store has one free
slot too small to split, so putting ([1], [2]) returns KVSTORE_NOT_FOUND and
leaves the store unchanged. -/
theorem c7_put_full_witness :
    slotPositions (kvstore_prepare (List.replicate 13 0)).store = some [0] ∧
    ((kvstore_put (kvstore_prepare (List.replicate 13 0)).store (some [1])
      ([1] : List Nat).length (some [2]) ([2] : List Nat).length).res = .NOT_FOUND ∧
    (kvstore_put (kvstore_prepare (List.replicate 13 0)).store (some [1])
      ([1] : List Nat).length (some [2]) ([2] : List Nat).length).store =
      (kvstore_prepare (List.replicate 13 0)).store) :=
  ⟨by decide,
    c7_put_full (kvstore_prepare (List.replicate 13 0)).store [1] [2] [0] (by decide)
      (by decide) (by decide) (by decide) (by decide) (by decide)⟩

set_option maxHeartbeats 4000000 in
/-- Witness for claim C8's theorem: a 60-byte store already holding ([1],
[9]) at offset 0 accepts a second put of key [1] into the free slot at offset
14, and search returns the slot at offset 0, the first in scan order. -/
theorem c8_no_dedup_first_match_witness :
    slotPositions (kvstore_put (kvstore_prepare (List.replicate 60 0)).store (some [1]) 1
      (some [9]) 1).store = some [0, 14] ∧
    ((kvstore_put (kvstore_put (kvstore_prepare (List.replicate 60 0)).store (some [1]) 1
      (some [9]) 1).store (some [1]) ([1] : List Nat).length (some [7, 7])
      ([7, 7] : List Nat).length).res = .OK ∧
    (kvstore_search (kvstore_put (kvstore_put (kvstore_prepare
      (List.replicate 60 0)).store (some [1]) 1 (some [9]) 1).store (some [1])
      ([1] : List Nat).length (some [7, 7]) ([7, 7] : List Nat).length).store ⟨0, [], 0⟩
      (some [1]) ([1] : List Nat).length).2.1.position = 0) :=
  ⟨by decide,
    (c8_no_dedup_first_match (kvstore_put (kvstore_prepare (List.replicate 60 0)).store
        (some [1]) 1 (some [9]) 1).store [1] [7, 7] [0, 14] 14 0 ⟨0, [], 0⟩ (by decide)
        (by decide) (by decide) (by decide) (by decide) (by decide) (by decide) (by decide)
        (by decide) (by decide) (by decide) (by decide) (by decide)).1,
    (c8_no_dedup_first_match (kvstore_put (kvstore_prepare (List.replicate 60 0)).store
        (some [1]) 1 (some [9]) 1).store [1] [7, 7] [0, 14] 14 0 ⟨0, [], 0⟩ (by decide)
        (by decide) (by decide) (by decide) (by decide) (by decide) (by decide) (by decide)
        (by decide) (by decide) (by decide) (by decide) (by decide)).2.2.2.2.2⟩

/-- Witness for claim C9's theorem: a put with a NULL key is rejected with
KVSTORE_BAD_ARG, an unchanged store, and an empty backend access log. -/
theorem c9_put_bad_arg_witness :
    ((none : Option (List Nat)) = none ∨ (0 : Nat) = 0 ∨
      (some [1] : Option (List Nat)) = none ∨ (1 : Nat) = 0 ∨
      (0 : Nat) > KVSTORE_MAX_KEY_SIZE) ∧
    kvstore_put [7] none 0 (some [1]) 1 = ⟨.BAD_ARG, [7], []⟩ :=
  ⟨by decide, c9_put_bad_arg [7] none 0 (some [1]) 1 (by decide)⟩
